import Mathlib

/-!
Shallow embedding of the per-cell HARQ process manager found in
lib/scheduler/ue_scheduling/cell_harq_manager.cpp.

Modelling conventions:
* Machine integers (slots, counters, indices) are Nat; slot_point arithmetic
  in the source is plain addition and modulus within one wrap period.
* C++ vectors are Lean lists.  The back of a C++ vector used as a stack
  (free_harqs, free_harq_ids) is the HEAD of the Lean list, so push_back is
  cons and popping the back takes the head.  The constructor of the source
  writes the initial free lists back-to-front, making the allocation order
  0, 1, 2, ...; the corresponding Lean lists are therefore List.range.
* The intrusive lists of the timeout wheel and the pending-retx list hold
  pool indices; push_front is cons and popping a given element is erase.
* The timeout notifier is modelled by returning the list of emitted events;
  an event additionally records the pool index of the process it concerns.
  The C++ callback receives (ue_idx, IsDl, ack_on_timeout); the direction
  flag is a property of the repository instance and is omitted here.
* The PUCCH SNR values compared by dl_ack_info are floats in the source;
  only strict comparison is ever applied to them, so they are embedded as
  integers, which preserves every comparison outcome.
* Out-of-range accesses that the source rules out through assertions or by
  construction are modelled as no-ops.
-/

/-- Modelled from the spec: the per-terminal bound on HARQ process ids,
declared in the missing header; the spec gives the configured maximum as 16. -/
def MAX_NOF_HARQS : Nat := 16

/-- Size of the timeout wheel ring, fixed to 40 in the repository constructor. -/
def RING_SIZE : Nat := 40

/-- Modelled from the spec: the fixed short re-arm deadline used when further
acknowledgment occasions are still expected; declared in the missing header. -/
def SHORT_ACK_TIMEOUT_DTX : Nat := 8

/-- Tri-state lifecycle of a HARQ process record. -/
inductive harq_state_t where
  | empty
  | waiting_ack
  | pending_retx
deriving DecidableEq

/-- Decoded HARQ-ACK report outcome. -/
inductive mac_harq_ack_report_status where
  | ack
  | nack
  | dtx
deriving DecidableEq

/-- Result of cell_harq_manager::dl_ack_info. -/
inductive status_update where
  | acked
  | nacked
  | no_update
  | error
deriving DecidableEq

/-- One HARQ process record of the flat pool.  Common fields follow the
source; the direction-specific fields (harq_bit_idx, pucch_ack_to_receive,
chosen_ack, last_pucch_snr for DL; prev_tx_params.tbs_bytes for both
directions) are kept in the same record. -/
structure harq_type where
  ue_idx : Nat
  h_id : Nat
  status : harq_state_t
  slot_tx : Nat
  slot_ack : Nat
  slot_ack_timeout : Nat
  nof_retxs : Nat
  max_nof_harq_retxs : Nat
  ndi : Bool
  ack_on_timeout : Bool
  retxs_cancelled : Bool
  harq_bit_idx : Nat
  pucch_ack_to_receive : Nat
  chosen_ack : mac_harq_ack_report_status
  last_pucch_snr : Option Int
  tbs_bytes : Nat
deriving DecidableEq

instance : Inhabited harq_type :=
  ⟨{ ue_idx := 0, h_id := 0, status := harq_state_t.empty, slot_tx := 0, slot_ack := 0,
     slot_ack_timeout := 0, nof_retxs := 0, max_nof_harq_retxs := 0, ndi := false,
     ack_on_timeout := false, retxs_cancelled := false, harq_bit_idx := 0,
     pucch_ack_to_receive := 0, chosen_ack := mac_harq_ack_report_status.dtx,
     last_pucch_snr := none, tbs_bytes := 0 }⟩

/-- Per-terminal index: the free list of reserved process ids and the mapping
from process id to pool index (none plays the role of INVALID_HARQ_REF_INDEX).
The nof_reserved field is ghost bookkeeping recording the budget passed to the
last reserve_ue_harqs call; no operation branches on it. -/
structure ue_harq_entity_impl where
  free_harq_ids : List Nat
  harqs : List (Option Nat)
  nof_reserved : Nat
deriving DecidableEq, Inhabited

/-- Event emitted through the harq_timeout_notifier.  harq_ref_idx records
which pool record the notification was issued for. -/
structure harq_timeout_event where
  harq_ref_idx : Nat
  ue_idx : Nat
  ack_on_timeout : Bool
deriving DecidableEq

/-- Per-direction HARQ repository state. -/
structure cell_harq_repository where
  harqs : List harq_type
  free_harqs : List Nat
  ues : List ue_harq_entity_impl
  harq_timeout_wheel : List (List Nat)
  harq_pending_retx_list : List Nat
  max_ack_wait_in_slots : Nat
deriving DecidableEq

/-- Bucket of the timeout wheel addressed by a slot, mirroring
wheel[t mod wheel.size()]. -/
def wheel_get (w : List (List Nat)) (t : Nat) : List Nat :=
  w.getD (t % w.length) []

/-- Replace the bucket of the timeout wheel addressed by a slot. -/
def wheel_set (w : List (List Nat)) (t : Nat) (b : List Nat) : List (List Nat) :=
  w.set (t % w.length) b

/-- push_front of a record into its timeout-wheel bucket. -/
def wheel_push_front (w : List (List Nat)) (t i : Nat) : List (List Nat) :=
  wheel_set w t (i :: wheel_get w t)

/-- pop of a given record from its timeout-wheel bucket. -/
def wheel_pop (w : List (List Nat)) (t i : Nat) : List (List Nat) :=
  wheel_set w t ((wheel_get w t).erase i)

/-- Constructor of cell_harq_repository: a pool of max_ues * MAX_NOF_HARQS
empty records, all of them on the global free list, per-terminal indices with
no reserved ids, and an empty timeout wheel of RING_SIZE buckets. -/
def cell_harq_repository.init (max_ues max_ack_wait_timeout : Nat) : cell_harq_repository :=
  { harqs := List.replicate (MAX_NOF_HARQS * max_ues) default
    free_harqs := List.range (MAX_NOF_HARQS * max_ues)
    ues := List.replicate max_ues
      { free_harq_ids := [], harqs := List.replicate MAX_NOF_HARQS none, nof_reserved := 0 }
    harq_timeout_wheel := List.replicate RING_SIZE []
    harq_pending_retx_list := []
    max_ack_wait_in_slots := max_ack_wait_timeout }

/-- cell_harq_repository::dealloc_harq.  No-op if the record is already empty;
otherwise returns the process id to the terminal free list, the array slot to
the global free list, removes the record from the timeout wheel (waiting_ack)
or the pending-retx list (pending_retx), and marks the record empty. -/
def cell_harq_repository.dealloc_harq (st : cell_harq_repository) (i : Nat) :
    cell_harq_repository :=
  match st.harqs[i]? with
  | none => st
  | some h =>
    if h.status = harq_state_t.empty then st
    else
      match st.ues[h.ue_idx]? with
      | none => st
      | some ue =>
        { st with
          ues := st.ues.set h.ue_idx
            { ue with harqs := ue.harqs.set h.h_id none,
                      free_harq_ids := h.h_id :: ue.free_harq_ids }
          free_harqs := i :: st.free_harqs
          harq_timeout_wheel :=
            if h.status = harq_state_t.waiting_ack then
              wheel_pop st.harq_timeout_wheel h.slot_ack_timeout i
            else st.harq_timeout_wheel
          harq_pending_retx_list :=
            if h.status = harq_state_t.waiting_ack then st.harq_pending_retx_list
            else st.harq_pending_retx_list.erase i
          harqs := st.harqs.set i { h with status := harq_state_t.empty } }

/-- cell_harq_repository::alloc_harq.  Fails (returning the state unchanged
and none, the counterpart of the nullptr return) when the global free list or
the terminal free id list is exhausted; otherwise pops one of each,
initializes the record, flips the NDI bit and inserts the record into the
timeout wheel at slot_ack + max_ack_wait_in_slots. -/
def cell_harq_repository.alloc_harq (st : cell_harq_repository)
    (ue_idx sl_tx sl_ack max_nof_harq_retxs : Nat) :
    cell_harq_repository × Option Nat :=
  match st.ues[ue_idx]? with
  | none => (st, none)
  | some ue =>
    match st.free_harqs, ue.free_harq_ids with
    | [], _ => (st, none)
    | _, [] => (st, none)
    | i :: free_rest, h_id :: ids_rest =>
      let h := st.harqs.getD i default
      let timeout := sl_ack + st.max_ack_wait_in_slots
      let h1 := { h with
        ue_idx := ue_idx, h_id := h_id, status := harq_state_t.waiting_ack,
        slot_tx := sl_tx, slot_ack := sl_ack, nof_retxs := 0,
        ndi := !h.ndi, max_nof_harq_retxs := max_nof_harq_retxs,
        ack_on_timeout := false, retxs_cancelled := false,
        slot_ack_timeout := timeout }
      ({ st with
         ues := st.ues.set ue_idx
           { ue with free_harq_ids := ids_rest, harqs := ue.harqs.set h_id (some i) }
         free_harqs := free_rest
         harqs := st.harqs.set i h1
         harq_timeout_wheel := wheel_push_front st.harq_timeout_wheel timeout i },
       some i)

/-- cell_harq_repository::set_pending_retx.  No-op if already pending_retx;
the empty case is excluded by a sanity check in the source and is modelled as
a no-op.  Otherwise moves the record from the timeout wheel to the
pending-retx list. -/
def cell_harq_repository.set_pending_retx (st : cell_harq_repository) (i : Nat) :
    cell_harq_repository :=
  match st.harqs[i]? with
  | none => st
  | some h =>
    if h.status = harq_state_t.pending_retx then st
    else if h.status = harq_state_t.empty then st
    else
      { st with
        harq_timeout_wheel := wheel_pop st.harq_timeout_wheel h.slot_ack_timeout i
        harq_pending_retx_list := i :: st.harq_pending_retx_list
        harqs := st.harqs.set i { h with status := harq_state_t.pending_retx } }

/-- cell_harq_repository::handle_ack.  Positive acknowledgment or exhausted
retry budget deallocates the record; otherwise the record moves to the
pending-retx list.  Logging is omitted. -/
def cell_harq_repository.handle_ack (st : cell_harq_repository) (i : Nat) (ack : Bool) :
    cell_harq_repository :=
  match st.harqs[i]? with
  | none => st
  | some h =>
    if ack ∨ h.nof_retxs ≥ h.max_nof_harq_retxs then st.dealloc_harq i
    else st.set_pending_retx i

/-- cell_harq_repository::handle_harq_ack_timeout.  Unless the configured
maximum acknowledgment wait is the degenerate value 1, the timeout notifier is
invoked with (ue_idx, direction, ack_on_timeout); the record is then
deallocated. -/
def cell_harq_repository.handle_harq_ack_timeout (st : cell_harq_repository) (i : Nat) :
    cell_harq_repository × List harq_timeout_event :=
  match st.harqs[i]? with
  | none => (st, [])
  | some h =>
    (st.dealloc_harq i,
     if st.max_ack_wait_in_slots ≠ 1 then [⟨i, h.ue_idx, h.ack_on_timeout⟩] else [])

/-- Iteration of cell_harq_repository::slot_indication over the records of the
visited bucket: each is passed to handle_harq_ack_timeout in list order. -/
def cell_harq_repository.timeout_loop :
    cell_harq_repository → List Nat → cell_harq_repository × List harq_timeout_event
  | st, [] => (st, [])
  | st, i :: rest =>
    let p := st.handle_harq_ack_timeout i
    let q := cell_harq_repository.timeout_loop p.1 rest
    (q.1, p.2 ++ q.2)

/-- cell_harq_repository::slot_indication: visits the timeout-wheel bucket of
the given slot and handles the timeout of every record queued there. -/
def cell_harq_repository.slot_indication (st : cell_harq_repository) (sl_tx : Nat) :
    cell_harq_repository × List harq_timeout_event :=
  cell_harq_repository.timeout_loop st (wheel_get st.harq_timeout_wheel sl_tx)

/-- cell_harq_repository::reserve_ue_harqs: fills the terminal free id list
with ids nof_harqs - 1, ..., 0 (back to front), so ids are handed out in
increasing order.  The ghost nof_reserved field records the budget. -/
def cell_harq_repository.reserve_ue_harqs (st : cell_harq_repository)
    (ue_idx nof_harqs : Nat) : cell_harq_repository :=
  match st.ues[ue_idx]? with
  | none => st
  | some ue =>
    { st with
      ues := st.ues.set ue_idx
        { ue with free_harq_ids := List.range nof_harqs, nof_reserved := nof_harqs } }

/-- Loop of cell_harq_repository::destroy_ue_harqs over process ids
0, ..., k-1, reading the live per-terminal index at each step and
deallocating every record it still references. -/
def cell_harq_repository.destroy_upto (u : Nat) :
    Nat → cell_harq_repository → cell_harq_repository
  | 0, st => st
  | k + 1, st =>
    let st1 := cell_harq_repository.destroy_upto u k st
    match (st1.ues.getD u default).harqs.getD k none with
    | none => st1
    | some i => st1.dealloc_harq i

/-- cell_harq_repository::destroy_ue_harqs: returns every record of the
terminal to the pool and clears the terminal free id list (the ghost
nof_reserved field is reset alongside). -/
def cell_harq_repository.destroy_ue_harqs (st : cell_harq_repository) (u : Nat) :
    cell_harq_repository :=
  match st.ues[u]? with
  | none => st
  | some ue =>
    let st1 := cell_harq_repository.destroy_upto u ue.harqs.length st
    match st1.ues[u]? with
    | none => st1
    | some ue1 =>
      { st1 with ues := st1.ues.set u { ue1 with free_harq_ids := [], nof_reserved := 0 } }

/-- cell_harq_repository::cancel_retxs: freezes the retry budget at the
current retransmission count and flags the record. -/
def cell_harq_repository.cancel_retxs (st : cell_harq_repository) (i : Nat) :
    cell_harq_repository :=
  match st.harqs[i]? with
  | none => st
  | some h =>
    if h.status = harq_state_t.empty then st
    else
      { st with
        harqs := st.harqs.set i
          { h with max_nof_harq_retxs := h.nof_retxs, retxs_cancelled := true } }

/-- The repository operations named by the pool-conservation claim. -/
inductive repo_op where
  | reserve (ue nof : Nat)
  | alloc (ue sl_tx sl_ack max_retx : Nat)
  | ack (i : Nat) (pos : Bool)
  | dealloc (i : Nat)
  | destroy (ue : Nat)
  | slot_ind (sl : Nat)
deriving DecidableEq

/-- One repository operation applied to the state (notifier events dropped). -/
def cell_harq_repository.step (st : cell_harq_repository) : repo_op → cell_harq_repository
  | repo_op.reserve u n => st.reserve_ue_harqs u n
  | repo_op.alloc u a b c => (st.alloc_harq u a b c).1
  | repo_op.ack i pos => st.handle_ack i pos
  | repo_op.dealloc i => st.dealloc_harq i
  | repo_op.destroy u => st.destroy_ue_harqs u
  | repo_op.slot_ind sl => (st.slot_indication sl).1

/-- A sequence of repository operations applied in order. -/
def cell_harq_repository.run (st : cell_harq_repository) (ops : List repo_op) :
    cell_harq_repository :=
  ops.foldl cell_harq_repository.step st

/-- Admission discipline on one operation: a reservation may only target a
terminal that currently owns no process (its per-terminal index is empty) and
may not exceed the per-terminal process-id bound.  All other operations are
unrestricted. -/
def wf_op (st : cell_harq_repository) : repo_op → Bool
  | repo_op.reserve u n =>
    decide (n ≤ (st.ues.getD u default).harqs.length) &&
      (st.ues.getD u default).harqs.all fun e => e.isNone
  | _ => true

/-- Admission discipline over a whole operation sequence. -/
def wf_ops : cell_harq_repository → List repo_op → Bool
  | _, [] => true
  | st, op :: rest => wf_op st op && wf_ops (st.step op) rest

/-- Number of non-empty records of the pool. -/
def nof_nonempty (st : cell_harq_repository) : Nat :=
  ((Finset.range st.harqs.length).filter fun i =>
    (st.harqs.getD i default).status ≠ harq_state_t.empty).card

/-- Number of non-empty records owned by one terminal. -/
def nof_nonempty_ue (st : cell_harq_repository) (u : Nat) : Nat :=
  ((Finset.range st.harqs.length).filter fun i =>
    (st.harqs.getD i default).status ≠ harq_state_t.empty ∧
      (st.harqs.getD i default).ue_idx = u).card

/-- Number of occurrences of a pool index across all timeout-wheel buckets. -/
def wheel_count (st : cell_harq_repository) (i : Nat) : Nat :=
  (st.harq_timeout_wheel.map fun b => b.count i).sum

/-- Number of occurrences of a pool index in the pending-retx list. -/
def pending_count (st : cell_harq_repository) (i : Nat) : Nat :=
  st.harq_pending_retx_list.count i

/-- The cell HARQ manager: one DL and one UL repository and the last slot
passed to slot_indication. -/
structure cell_harq_manager where
  dl : cell_harq_repository
  ul : cell_harq_repository
  last_sl_tx : Nat
deriving DecidableEq

/-- Constructor of cell_harq_manager. -/
def cell_harq_manager.init (max_ues max_ack_wait_timeout : Nat) : cell_harq_manager :=
  { dl := cell_harq_repository.init max_ues max_ack_wait_timeout
    ul := cell_harq_repository.init max_ues max_ack_wait_timeout
    last_sl_tx := 0 }

/-- cell_harq_manager::slot_indication: records the slot and forwards it to
both repositories, collecting the notifier events of each. -/
def cell_harq_manager.slot_indication (m : cell_harq_manager) (sl_tx : Nat) :
    cell_harq_manager × List harq_timeout_event × List harq_timeout_event :=
  let p := m.dl.slot_indication sl_tx
  let q := m.ul.slot_indication sl_tx
  ({ m with dl := p.1, ul := q.1, last_sl_tx := sl_tx }, p.2, q.2)

/-- cell_harq_manager::contains: a terminal counts as present when its DL free
process-id list is non-empty. -/
def cell_harq_manager.contains (m : cell_harq_manager) (ue_idx : Nat) : Bool :=
  !(m.dl.ues.getD ue_idx default).free_harq_ids.isEmpty

/-- The srsran_assert conditions of cell_harq_manager::add_ue; the call is
fatal unless all three hold. -/
def cell_harq_manager.add_ue_asserts (m : cell_harq_manager)
    (ue_idx nof_dl_harq_procs nof_ul_harq_procs : Nat) : Bool :=
  decide (0 < nof_dl_harq_procs) && decide (0 < nof_ul_harq_procs) &&
    !(m.contains ue_idx)

/-- cell_harq_manager::add_ue: reserves the DL and UL budgets of the terminal
(the rnti argument of the source is not used by any modelled behavior). -/
def cell_harq_manager.add_ue (m : cell_harq_manager)
    (ue_idx nof_dl_harq_procs nof_ul_harq_procs : Nat) : cell_harq_manager :=
  { m with dl := m.dl.reserve_ue_harqs ue_idx nof_dl_harq_procs
           ul := m.ul.reserve_ue_harqs ue_idx nof_ul_harq_procs }

/-- cell_harq_manager::destroy_ue. -/
def cell_harq_manager.destroy_ue (m : cell_harq_manager) (ue_idx : Nat) : cell_harq_manager :=
  { m with dl := m.dl.destroy_ue_harqs ue_idx, ul := m.ul.destroy_ue_harqs ue_idx }

/-- cell_harq_manager::new_dl_tx: allocates a DL process with acknowledgment
slot pdsch_slot + k1 and seeds the DL-specific fields. -/
def cell_harq_manager.new_dl_tx (m : cell_harq_manager)
    (ue_idx pdsch_slot k1 max_harq_nof_retxs harq_bit_idx : Nat) :
    cell_harq_manager × Option Nat :=
  let p := m.dl.alloc_harq ue_idx pdsch_slot (pdsch_slot + k1) max_harq_nof_retxs
  match p.2 with
  | none => (m, none)
  | some i =>
    let h := p.1.harqs.getD i default
    let h1 := { h with
      tbs_bytes := 0
      harq_bit_idx := harq_bit_idx
      pucch_ack_to_receive := 0
      chosen_ack := mac_harq_ack_report_status.dtx
      last_pucch_snr := none }
    ({ m with dl := { p.1 with harqs := p.1.harqs.set i h1 } }, some i)

/-- cell_harq_manager::new_ul_tx: allocates a UL process whose acknowledgment
slot equals its transmission slot and clears the previous transmission
parameters. -/
def cell_harq_manager.new_ul_tx (m : cell_harq_manager)
    (ue_idx pusch_slot max_harq_nof_retxs : Nat) : cell_harq_manager × Option Nat :=
  let p := m.ul.alloc_harq ue_idx pusch_slot pusch_slot max_harq_nof_retxs
  match p.2 with
  | none => (m, none)
  | some i =>
    let h := p.1.harqs.getD i default
    let h1 := { h with tbs_bytes := 0 }
    ({ m with ul := { p.1 with harqs := p.1.harqs.set i h1 } }, some i)

/-- Adoption condition of a decoded HARQ-ACK report in dl_ack_info: the report
is not DTX and either no prior result was recorded or the new report carries a
strictly higher SNR than the recorded one. -/
def ack_adopted (ack : mac_harq_ack_report_status) (last cur : Option Int) : Prop :=
  ack ≠ mac_harq_ack_report_status.dtx ∧
    (last = none ∨ (cur ≠ none ∧ last.getD 0 < cur.getD 0))

instance (a : mac_harq_ack_report_status) (l c : Option Int) : Decidable (ack_adopted a l c) := by
  unfold ack_adopted
  infer_instance

/-- The codebook merge step of dl_ack_info on the (chosen_ack, last_pucch_snr)
pair. -/
def merge_ack (chosen : mac_harq_ack_report_status) (last : Option Int)
    (ack : mac_harq_ack_report_status) (cur : Option Int) :
    mac_harq_ack_report_status × Option Int :=
  if ack_adopted ack last cur then (ack, cur) else (chosen, last)

/-- cell_harq_manager::dl_ack_info.  A record not in waiting_ack yields error
with no state change.  Otherwise the report is merged; on the last pending
occasion the outcome is finalized through handle_ack, and on an earlier
occasion the occasion count is decremented, the default timeout outcome is
remembered and the record is re-inserted into the timeout wheel with the
shortened deadline last_sl_tx + SHORT_ACK_TIMEOUT_DTX. -/
def cell_harq_manager.dl_ack_info (m : cell_harq_manager) (i : Nat)
    (ack : mac_harq_ack_report_status) (pucch_snr : Option Int) :
    cell_harq_manager × status_update :=
  match m.dl.harqs[i]? with
  | none => (m, status_update.error)
  | some h =>
    if h.status ≠ harq_state_t.waiting_ack then (m, status_update.error)
    else
      let c := merge_ack h.chosen_ack h.last_pucch_snr ack pucch_snr
      let h1 := { h with chosen_ack := c.1, last_pucch_snr := c.2 }
      if h1.pucch_ack_to_receive ≤ 1 then
        let final_ack := h1.chosen_ack = mac_harq_ack_report_status.ack
        let dl1 := { m.dl with harqs := m.dl.harqs.set i h1 }
        ({ m with dl := dl1.handle_ack i (decide final_ack) },
         if final_ack then status_update.acked else status_update.nacked)
      else
        let timeout := m.last_sl_tx + SHORT_ACK_TIMEOUT_DTX
        let h2 := { h1 with
          pucch_ack_to_receive := h1.pucch_ack_to_receive - 1,
          ack_on_timeout := decide (h1.chosen_ack = mac_harq_ack_report_status.ack),
          slot_ack_timeout := timeout }
        ({ m with dl := { m.dl with
            harqs := m.dl.harqs.set i h2
            harq_timeout_wheel :=
              wheel_push_front (wheel_pop m.dl.harq_timeout_wheel h1.slot_ack_timeout i)
                timeout i } },
         status_update.no_update)

/-- cell_harq_manager::ul_crc_info.  A record not in waiting_ack yields -1
with no state change; otherwise handle_ack is applied and the byte count of
the previous transmission (or zero) is returned. -/
def cell_harq_manager.ul_crc_info (m : cell_harq_manager) (i : Nat) (ack : Bool) :
    cell_harq_manager × Int :=
  match m.ul.harqs[i]? with
  | none => (m, -1)
  | some h =>
    if h.status ≠ harq_state_t.waiting_ack then (m, -1)
    else
      ({ m with ul := m.ul.handle_ack i ack },
       if ack then (h.tbs_bytes : Int) else 0)

/-- Universal statement over the content of an Option, used to state the
per-terminal index invariants in a decidable form. -/
def opt_forall {α : Type} (x : Option α) (P : α → Prop) : Prop :=
  ∀ a, x = some a → P a

instance {α : Type} (x : Option α) (P : α → Prop) [∀ a, Decidable (P a)] :
    Decidable (opt_forall x P) := by
  unfold opt_forall
  cases x with
  | none => exact isTrue (by intro a ha; cases ha)
  | some b =>
    exact decidable_of_iff (P b)
      ⟨fun h a ha => by cases ha; exact h, fun h => h b rfl⟩

/-- Free-pool invariant: the global free list has no duplicates and holds
exactly the indices of the empty records. -/
def InvPool (st : cell_harq_repository) : Prop :=
  st.free_harqs.Nodup ∧
  (∀ i ∈ st.free_harqs, i < st.harqs.length) ∧
  (∀ i < st.harqs.length,
    (i ∈ st.free_harqs ↔ (st.harqs.getD i default).status = harq_state_t.empty))

/-- Membership invariant of the timeout wheel and the pending-retx list:
every bucket is duplicate-free and holds exactly the waiting_ack records whose
deadline hashes to it; the pending-retx list is duplicate-free and holds
exactly the pending_retx records. -/
def InvWheel (st : cell_harq_repository) : Prop :=
  0 < st.harq_timeout_wheel.length ∧
  (∀ bidx < st.harq_timeout_wheel.length,
    (st.harq_timeout_wheel.getD bidx []).Nodup ∧
    ∀ i ∈ st.harq_timeout_wheel.getD bidx [],
      i < st.harqs.length ∧
      (st.harqs.getD i default).status = harq_state_t.waiting_ack ∧
      (st.harqs.getD i default).slot_ack_timeout % st.harq_timeout_wheel.length = bidx) ∧
  (∀ i < st.harqs.length,
    (st.harqs.getD i default).status = harq_state_t.waiting_ack →
      i ∈ wheel_get st.harq_timeout_wheel (st.harqs.getD i default).slot_ack_timeout) ∧
  st.harq_pending_retx_list.Nodup ∧
  (∀ i ∈ st.harq_pending_retx_list,
    i < st.harqs.length ∧ (st.harqs.getD i default).status = harq_state_t.pending_retx) ∧
  (∀ i < st.harqs.length,
    (st.harqs.getD i default).status = harq_state_t.pending_retx →
      i ∈ st.harq_pending_retx_list)

/-- Every non-empty record names an existing terminal. -/
def InvOwner (st : cell_harq_repository) : Prop :=
  ∀ i < st.harqs.length,
    (st.harqs.getD i default).status ≠ harq_state_t.empty →
      (st.harqs.getD i default).ue_idx < st.ues.length

/-- Structural repository invariant maintained by every operation. -/
def RepoInv (st : cell_harq_repository) : Prop :=
  InvPool st ∧ InvWheel st ∧ InvOwner st

/-- Per-terminal index/record agreement: an index entry points at a non-empty
record carrying the matching owner and process id, and every non-empty record
owned by the terminal is referenced by the entry of its process id. -/
def ueMapInv (st : cell_harq_repository) (u : Nat) : Prop :=
  (∀ pid < (st.ues.getD u default).harqs.length,
    opt_forall ((st.ues.getD u default).harqs.getD pid none) fun i =>
      i < st.harqs.length ∧
      (st.harqs.getD i default).status ≠ harq_state_t.empty ∧
      (st.harqs.getD i default).ue_idx = u ∧
      (st.harqs.getD i default).h_id = pid) ∧
  (∀ i < st.harqs.length,
    (st.harqs.getD i default).status ≠ harq_state_t.empty →
    (st.harqs.getD i default).ue_idx = u →
      (st.harqs.getD i default).h_id < (st.ues.getD u default).harqs.length ∧
      (st.ues.getD u default).harqs.getD (st.harqs.getD i default).h_id none = some i)

/-- Per-terminal free id invariant: the free id list is duplicate-free, holds
only unoccupied ids below the reserved budget, holds all of them, and every
occupied id lies below the budget, which never exceeds the index capacity. -/
def ueFreeInv (st : cell_harq_repository) (u : Nat) : Prop :=
  (st.ues.getD u default).free_harq_ids.Nodup ∧
  (st.ues.getD u default).nof_reserved ≤ (st.ues.getD u default).harqs.length ∧
  (∀ pid ∈ (st.ues.getD u default).free_harq_ids,
    pid < (st.ues.getD u default).nof_reserved ∧
    (st.ues.getD u default).harqs.getD pid none = none) ∧
  (∀ pid < (st.ues.getD u default).nof_reserved,
    (st.ues.getD u default).harqs.getD pid none = none →
      pid ∈ (st.ues.getD u default).free_harq_ids) ∧
  (∀ pid < (st.ues.getD u default).harqs.length,
    (st.ues.getD u default).harqs.getD pid none ≠ none →
      pid < (st.ues.getD u default).nof_reserved)

/-- Per-terminal invariant over all terminals. -/
def UeInv (st : cell_harq_repository) : Prop :=
  ∀ u < st.ues.length, ueMapInv st u ∧ ueFreeInv st u

instance (st : cell_harq_repository) : Decidable (InvPool st) := by
  unfold InvPool
  infer_instance

instance (st : cell_harq_repository) : Decidable (InvWheel st) := by
  unfold InvWheel
  infer_instance

instance (st : cell_harq_repository) : Decidable (InvOwner st) := by
  unfold InvOwner
  infer_instance

instance (st : cell_harq_repository) : Decidable (RepoInv st) := by
  unfold RepoInv
  infer_instance

instance (st : cell_harq_repository) (u : Nat) : Decidable (ueMapInv st u) := by
  unfold ueMapInv
  infer_instance

instance (st : cell_harq_repository) (u : Nat) : Decidable (ueFreeInv st u) := by
  unfold ueFreeInv
  infer_instance

instance (st : cell_harq_repository) : Decidable (UeInv st) := by
  unfold UeInv
  infer_instance

/-- Applies cell_harq_manager::slot_indication for each slot of a list in
order, discarding the notifier events. -/
def cell_harq_manager.run_slots (m : cell_harq_manager) (sls : List Nat) : cell_harq_manager :=
  sls.foldl (fun acc s => (acc.slot_indication s).1) m

/-- Example repository: one terminal, maximum acknowledgment wait of 8. -/
def ex_repo0 : cell_harq_repository := cell_harq_repository.init 1 8

/-- Example repository after reserving the full budget of terminal 0. -/
def ex_repo1 : cell_harq_repository := ex_repo0.reserve_ue_harqs 0 16

/-- Example repository after allocating one process at slot 100 with
acknowledgment slot 104 (k1 = 4) and 4 retransmissions. -/
def ex_repo2 : cell_harq_repository := (ex_repo1.alloc_harq 0 100 104 4).1

/-- Example manager: one terminal, maximum acknowledgment wait of 8. -/
def ex_mgr0 : cell_harq_manager := cell_harq_manager.init 1 8

/-- Example manager after admitting terminal 0 with 16 DL and UL processes. -/
def ex_mgr1 : cell_harq_manager := ex_mgr0.add_ue 0 16 16

/-- Example manager after allocating a DL process at slot 100 with k1 = 4. -/
def ex_mgr2 : cell_harq_manager := (ex_mgr1.new_dl_tx 0 100 4 4 0).1

/-- Example manager whose DL record 0 expects two acknowledgment occasions.
The field incrementer (the PUCCH allocator) lives outside the HARQ manager, so
the two-occasion state is set up directly. -/
def ex_mgr_two_occ : cell_harq_manager :=
  let h2 := { ex_mgr2.dl.harqs.getD 0 default with pucch_ack_to_receive := 2 }
  { ex_mgr2 with dl := { ex_mgr2.dl with harqs := ex_mgr2.dl.harqs.set 0 h2 } }

/-- Example manager after the first of two acknowledgment occasions reported
ack with SNR 5. -/
def ex_mgr_two_occ_after1 : cell_harq_manager :=
  (ex_mgr_two_occ.dl_ack_info 0 mac_harq_ack_report_status.ack (some 5)).1

/-- Operation sequence violating the admission discipline: terminal 0 is
reserved a budget of one process, allocates it, is reserved again without
being destroyed, and allocates once more. -/
def double_reserve_ops : List repo_op :=
  [repo_op.reserve 0 1, repo_op.alloc 0 10 12 4,
   repo_op.reserve 0 1, repo_op.alloc 0 10 12 4]

/-- Repository state reached by the double-reservation sequence. -/
def ex_double_reserve : cell_harq_repository :=
  (cell_harq_repository.init 1 8).run double_reserve_ops

/-- Example manager where terminal 0 was admitted with a single DL process
which is currently allocated: the terminal is present but its DL free id list
is empty. -/
def ex_mgr_full : cell_harq_manager :=
  (((cell_harq_manager.init 1 8).add_ue 0 1 1).new_dl_tx 0 10 4 4 0).1

/-- Two-terminal repository, each terminal reserved one process, terminal 0
holding pool slot 0. -/
def ex_ndi0 : cell_harq_repository :=
  (cell_harq_repository.init 2 8).run
    [repo_op.reserve 0 1, repo_op.reserve 1 1, repo_op.alloc 0 10 12 4]

/-- The previous state after terminal 0 released pool slot 0 and terminal 1
allocated it. -/
def ex_ndi1 : cell_harq_repository :=
  ex_ndi0.run [repo_op.dealloc 0, repo_op.alloc 1 20 22 4]

/-- The previous state after terminal 1 released pool slot 0 and terminal 0
allocated it again. -/
def ex_ndi2 : cell_harq_repository :=
  ex_ndi1.run [repo_op.dealloc 0, repo_op.alloc 0 30 32 4]

/-- Example manager holding a UL process whose previous transmission carried
148 bytes.  The field is written by the grant-parameter saving path outside
this translation unit, so it is set up directly. -/
def ex_mgr_ul : cell_harq_manager :=
  let m := (((cell_harq_manager.init 1 8).add_ue 0 16 16).new_ul_tx 0 50 4).1
  let h2 := { m.ul.harqs.getD 0 default with tbs_bytes := 148 }
  { m with ul := { m.ul with harqs := m.ul.harqs.set 0 h2 } }

/-- The state components whose sizes and configuration never change under any
repository operation. -/
def SameShape (s t : cell_harq_repository) : Prop :=
  s.harqs.length = t.harqs.length ∧
  s.ues.length = t.ues.length ∧
  s.harq_timeout_wheel.length = t.harq_timeout_wheel.length ∧
  s.max_ack_wait_in_slots = t.max_ack_wait_in_slots

/-- The (chosen_ack, last_pucch_snr) pair produced by a sequence of decoded
reports, each carrying an SNR value, merged by the dl_ack_info rule from the
initial state set by new_dl_tx. -/
def merge_ack_fold (reports : List (mac_harq_ack_report_status × Int)) :
    mac_harq_ack_report_status × Option Int :=
  reports.foldl (fun acc r => merge_ack acc.1 acc.2 r.1 (some r.2))
    (mac_harq_ack_report_status.dtx, none)

/-- Modelled from the spec: the decision the spec describes for the downlink
codebook merge — among all non-dtx reports, the one with strictly highest
quality, ties broken in favor of the earliest-received report.  List.argmax
returns exactly the earliest element attaining the maximum. -/
def spec_chosen (reports : List (mac_harq_ack_report_status × Int)) :
    Option (mac_harq_ack_report_status × Int) :=
  (reports.filter fun r => decide (r.1 ≠ mac_harq_ack_report_status.dtx)).argmax Prod.snd

theorem getD_set_self {α : Type} {l : List α} {i : Nat} (a d : α) (h : i < l.length) :
    (l.set i a).getD i d = a := by
  rw [List.getD_eq_getElem _ _ (by simpa using h)]
  exact List.getElem_set_self _

theorem getD_set_ne {α : Type} {l : List α} {i j : Nat} (a d : α) (h : i ≠ j) :
    (l.set i a).getD j d = l.getD j d := by
  rcases Nat.lt_or_ge j l.length with hj | hj
  · rw [List.getD_eq_getElem _ _ (by simpa using hj), List.getD_eq_getElem _ _ hj]
    exact List.getElem_set_ne h _
  · rw [List.getD_eq_default _ _ (by simpa using hj), List.getD_eq_default _ _ hj]

theorem getD_eq_of_getElem? {α : Type} {l : List α} {i : Nat} {a : α}
    (h : l[i]? = some a) (d : α) : l.getD i d = a := by
  have hi : i < l.length := by
    by_contra hcon
    rw [List.getElem?_eq_none (Nat.le_of_not_lt hcon)] at h
    cases h
  rw [List.getD_eq_getElem _ _ hi]
  have := List.getElem?_eq_getElem hi
  rw [this] at h
  exact Option.some_inj.mp h

theorem getElem?_eq_some_getD {α : Type} {l : List α} {i : Nat} (d : α) (h : i < l.length) :
    l[i]? = some (l.getD i d) := by
  rw [List.getD_eq_getElem _ _ h]
  exact List.getElem?_eq_getElem h

theorem lt_length_of_getElem? {α : Type} {l : List α} {i : Nat} {a : α}
    (h : l[i]? = some a) : i < l.length := by
  by_contra hcon
  rw [List.getElem?_eq_none (Nat.le_of_not_lt hcon)] at h
  cases h

theorem wheel_set_length (w : List (List Nat)) (t : Nat) (b : List Nat) :
    (wheel_set w t b).length = w.length :=
  List.length_set ..

theorem wheel_get_set_self {w : List (List Nat)} {t t' : Nat} (b : List Nat)
    (h0 : 0 < w.length) (h : t' % w.length = t % w.length) :
    wheel_get (wheel_set w t b) t' = b := by
  unfold wheel_get wheel_set
  rw [List.length_set, h]
  exact getD_set_self _ _ (Nat.mod_lt _ h0)

theorem wheel_get_set_ne {w : List (List Nat)} {t t' : Nat} (b : List Nat)
    (h : t' % w.length ≠ t % w.length) :
    wheel_get (wheel_set w t b) t' = wheel_get w t' := by
  unfold wheel_get wheel_set
  rw [List.length_set]
  exact getD_set_ne _ _ fun hc => h hc.symm

theorem wheel_pop_length (w : List (List Nat)) (t i : Nat) :
    (wheel_pop w t i).length = w.length :=
  List.length_set ..

theorem wheel_push_front_length (w : List (List Nat)) (t i : Nat) :
    (wheel_push_front w t i).length = w.length :=
  List.length_set ..

theorem sameShape_rfl (s : cell_harq_repository) : SameShape s s :=
  ⟨rfl, rfl, rfl, rfl⟩

theorem sameShape_trans {a b c : cell_harq_repository}
    (h1 : SameShape a b) (h2 : SameShape b c) : SameShape a c :=
  ⟨h1.1.trans h2.1, h1.2.1.trans h2.2.1, h1.2.2.1.trans h2.2.2.1, h1.2.2.2.trans h2.2.2.2⟩

theorem dealloc_shape (st : cell_harq_repository) (i : Nat) :
    SameShape st (st.dealloc_harq i) := by
  unfold cell_harq_repository.dealloc_harq
  split
  · exact sameShape_rfl _
  · split
    · exact sameShape_rfl _
    · split
      · exact sameShape_rfl _
      · refine ⟨?_, ?_, ?_, rfl⟩ <;>
          simp [wheel_pop, wheel_set_length]
        split <;> simp [wheel_pop, wheel_set_length]

theorem alloc_shape (st : cell_harq_repository) (u a b c : Nat) :
    SameShape st (st.alloc_harq u a b c).1 := by
  unfold cell_harq_repository.alloc_harq
  split
  · exact sameShape_rfl _
  · split
    · exact sameShape_rfl _
    · exact sameShape_rfl _
    · refine ⟨?_, ?_, ?_, rfl⟩ <;>
        simp [wheel_push_front, wheel_set_length]

theorem set_pending_shape (st : cell_harq_repository) (i : Nat) :
    SameShape st (st.set_pending_retx i) := by
  unfold cell_harq_repository.set_pending_retx
  split
  · exact sameShape_rfl _
  · split
    · exact sameShape_rfl _
    · split
      · exact sameShape_rfl _
      · refine ⟨?_, ?_, ?_, rfl⟩ <;>
          simp [wheel_pop, wheel_set_length]

theorem handle_ack_shape (st : cell_harq_repository) (i : Nat) (ack : Bool) :
    SameShape st (st.handle_ack i ack) := by
  unfold cell_harq_repository.handle_ack
  split
  · exact sameShape_rfl _
  · split
    · exact dealloc_shape _ _
    · exact set_pending_shape _ _

theorem handle_timeout_shape (st : cell_harq_repository) (i : Nat) :
    SameShape st (st.handle_harq_ack_timeout i).1 := by
  unfold cell_harq_repository.handle_harq_ack_timeout
  split
  · exact sameShape_rfl _
  · exact dealloc_shape _ _

theorem timeout_loop_shape (l : List Nat) :
    ∀ st : cell_harq_repository, SameShape st (cell_harq_repository.timeout_loop st l).1 := by
  induction l with
  | nil => intro st; exact sameShape_rfl _
  | cons i rest ih =>
    intro st
    exact sameShape_trans (handle_timeout_shape st i) (ih _)

theorem slot_indication_shape (st : cell_harq_repository) (sl : Nat) :
    SameShape st (st.slot_indication sl).1 :=
  timeout_loop_shape _ st

theorem reserve_shape (st : cell_harq_repository) (u n : Nat) :
    SameShape st (st.reserve_ue_harqs u n) := by
  unfold cell_harq_repository.reserve_ue_harqs
  split
  · exact sameShape_rfl _
  · exact ⟨rfl, (List.length_set ..).symm, rfl, rfl⟩

theorem destroy_upto_shape (u : Nat) (k : Nat) (st : cell_harq_repository) :
    SameShape st (cell_harq_repository.destroy_upto u k st) := by
  induction k with
  | zero => exact sameShape_rfl _
  | succ k ih =>
    unfold cell_harq_repository.destroy_upto
    dsimp only
    split
    · exact ih
    · exact sameShape_trans ih (dealloc_shape _ _)

theorem destroy_shape (st : cell_harq_repository) (u : Nat) :
    SameShape st (st.destroy_ue_harqs u) := by
  unfold cell_harq_repository.destroy_ue_harqs
  split
  · exact sameShape_rfl _
  · dsimp only
    split
    · exact destroy_upto_shape ..
    · exact sameShape_trans (destroy_upto_shape ..)
        ⟨rfl, (List.length_set ..).symm, rfl, rfl⟩

theorem step_shape (st : cell_harq_repository) (op : repo_op) :
    SameShape st (st.step op) := by
  cases op with
  | reserve u n => exact reserve_shape ..
  | alloc u a b c => exact alloc_shape ..
  | ack i pos => exact handle_ack_shape ..
  | dealloc i => exact dealloc_shape ..
  | destroy u => exact destroy_shape ..
  | slot_ind sl => exact slot_indication_shape ..

theorem run_shape (ops : List repo_op) :
    ∀ st : cell_harq_repository, SameShape st (st.run ops) := by
  induction ops with
  | nil => intro st; exact sameShape_rfl _
  | cons op rest ih =>
    intro st
    exact sameShape_trans (step_shape st op) (ih _)

theorem repoInv_dealloc (st : cell_harq_repository) (i : Nat) (hInv : RepoInv st) :
    RepoInv (st.dealloc_harq i) := by
  unfold cell_harq_repository.dealloc_harq
  split
  · exact hInv
  next h heq =>
    split
    next hempty => exact hInv
    next hnotempty =>
      split
      · exact hInv
      next ue heq2 =>
        obtain ⟨⟨hnd, hbound, hiff⟩, ⟨hwlen, hbk, hcw, hndp, hmp, hcp⟩, howner⟩ := hInv
        have hi : i < st.harqs.length := lt_length_of_getElem? heq
        have hgd : st.harqs.getD i default = h := getD_eq_of_getElem? heq _
        have hinotfree : i ∉ st.free_harqs := fun hmem => by
          have := (hiff i hi).mp hmem
          rw [hgd] at this
          exact hnotempty this
        by_cases hw : h.status = harq_state_t.waiting_ack
        · -- waiting_ack: the record leaves the timeout wheel
          have hinotp : i ∉ st.harq_pending_retx_list := fun hmem => by
            have := (hmp i hmem).2
            rw [hgd, hw] at this
            cases this
          refine ⟨⟨?_, ?_, ?_⟩, ⟨?_, ?_, ?_, ?_, ?_, ?_⟩, ?_⟩
          · exact List.nodup_cons.mpr ⟨hinotfree, hnd⟩
          · intro j hj
            simp only [List.length_set]
            rcases List.mem_cons.mp hj with hj | hj
            · subst hj
              exact hi
            · exact hbound j hj
          · intro j hj
            simp only [List.length_set] at hj
            by_cases hji : j = i
            · subst hji
              simp only [List.mem_cons, true_or, true_iff]
              rw [getD_set_self _ _ hi]
            · simp only [List.mem_cons, hji, false_or]
              rw [getD_set_ne _ _ (fun hc => hji hc.symm)]
              exact hiff j hj
          · simp only [if_pos hw, wheel_pop_length]
            exact hwlen
          · -- bucket invariant of the popped wheel
            intro bidx hb
            simp only [if_pos hw] at *
            simp only [wheel_pop_length] at hb ⊢
            have hlen0 : 0 < st.harq_timeout_wheel.length := Nat.lt_of_le_of_lt (Nat.zero_le _) hb
            obtain ⟨hbnd, hbmem⟩ := hbk bidx hb
            by_cases hbeq : bidx = h.slot_ack_timeout % st.harq_timeout_wheel.length
            · have hget : wheel_get (wheel_pop st.harq_timeout_wheel h.slot_ack_timeout i)
                  h.slot_ack_timeout = (wheel_get st.harq_timeout_wheel h.slot_ack_timeout).erase i :=
                wheel_get_set_self _ hlen0 rfl
              have hbucket_eq : (wheel_pop st.harq_timeout_wheel h.slot_ack_timeout i).getD bidx [] =
                  (wheel_get st.harq_timeout_wheel h.slot_ack_timeout).erase i := by
                unfold wheel_pop wheel_set
                rw [hbeq]
                exact getD_set_self _ _ (Nat.mod_lt _ hlen0)
              rw [hbucket_eq]
              have hbold : wheel_get st.harq_timeout_wheel h.slot_ack_timeout =
                  st.harq_timeout_wheel.getD bidx [] := by
                unfold wheel_get
                rw [hbeq]
              obtain ⟨hbnd2, hbmem2⟩ := hbk (h.slot_ack_timeout % st.harq_timeout_wheel.length)
                (Nat.mod_lt _ hlen0)
              constructor
              · exact List.Nodup.erase _ (hbold ▸ hbnd)
              · intro j hj
                have hjne : j ≠ i := by
                  have := (List.Nodup.mem_erase_iff (hbold ▸ hbnd)).mp hj
                  exact this.1
                have hjold : j ∈ st.harq_timeout_wheel.getD bidx [] := by
                  rw [← hbold]
                  exact List.mem_of_mem_erase hj
                obtain ⟨hjlen, hjstat, hjtime⟩ := hbmem j hjold
                refine ⟨by simpa using hjlen, ?_, ?_⟩
                · rw [getD_set_ne _ _ (fun hc => hjne hc.symm)]
                  exact hjstat
                · rw [getD_set_ne _ _ (fun hc => hjne hc.symm)]
                  exact hjtime
            · have hbucket_eq : (wheel_pop st.harq_timeout_wheel h.slot_ack_timeout i).getD bidx [] =
                  st.harq_timeout_wheel.getD bidx [] := by
                unfold wheel_pop wheel_set
                exact getD_set_ne _ _ (fun hc => hbeq hc.symm)
              rw [hbucket_eq]
              constructor
              · exact hbnd
              · intro j hj
                obtain ⟨hjlen, hjstat, hjtime⟩ := hbmem j hj
                have hjne : j ≠ i := by
                  intro hc
                  subst hc
                  rw [hgd] at hjtime
                  exact hbeq hjtime.symm
                refine ⟨by simpa using hjlen, ?_, ?_⟩
                · rw [getD_set_ne _ _ (fun hc => hjne hc.symm)]
                  exact hjstat
                · rw [getD_set_ne _ _ (fun hc => hjne hc.symm)]
                  exact hjtime
          · -- waiting records remain in their buckets
            intro j hj hjstat
            simp only [List.length_set] at hj
            simp only [if_pos hw]
            have hjne : j ≠ i := by
              intro hc
              subst hc
              rw [getD_set_self _ _ hi] at hjstat
              cases hjstat
            rw [getD_set_ne _ _ (fun hc => hjne hc.symm)] at hjstat ⊢
            have hmemold := hcw j hj hjstat
            have hlen0 : 0 < st.harq_timeout_wheel.length := hwlen
            unfold wheel_pop
            by_cases hteq : (st.harqs.getD j default).slot_ack_timeout %
                st.harq_timeout_wheel.length = h.slot_ack_timeout % st.harq_timeout_wheel.length
            · have : wheel_get (wheel_set st.harq_timeout_wheel h.slot_ack_timeout
                  ((wheel_get st.harq_timeout_wheel h.slot_ack_timeout).erase i))
                  (st.harqs.getD j default).slot_ack_timeout =
                  (wheel_get st.harq_timeout_wheel h.slot_ack_timeout).erase i :=
                wheel_get_set_self _ hlen0 hteq
              rw [this]
              have : wheel_get st.harq_timeout_wheel (st.harqs.getD j default).slot_ack_timeout =
                  wheel_get st.harq_timeout_wheel h.slot_ack_timeout := by
                unfold wheel_get
                rw [hteq]
              rw [this] at hmemold
              exact (List.mem_erase_of_ne hjne).mpr hmemold
            · rw [wheel_get_set_ne _ hteq]
              exact hmemold
          · simp only [if_pos hw]
            exact hndp
          · simp only [if_pos hw]
            intro j hj
            obtain ⟨hjlen, hjstat⟩ := hmp j hj
            have hjne : j ≠ i := by
              intro hc
              subst hc
              rw [hgd, hw] at hjstat
              cases hjstat
            refine ⟨by simpa using hjlen, ?_⟩
            rw [getD_set_ne _ _ (fun hc => hjne hc.symm)]
            exact hjstat
          · simp only [if_pos hw]
            intro j hj hjstat
            simp only [List.length_set] at hj
            have hjne : j ≠ i := by
              intro hc
              subst hc
              rw [getD_set_self _ _ hi] at hjstat
              cases hjstat
            rw [getD_set_ne _ _ (fun hc => hjne hc.symm)] at hjstat
            exact hcp j hj hjstat
          · -- owner bound
            intro j hj hjstat
            simp only [List.length_set] at hj ⊢
            by_cases hji : j = i
            · subst hji
              rw [getD_set_self _ _ hi] at hjstat
              simp at hjstat
            · rw [getD_set_ne _ _ (fun hc => hji hc.symm)] at hjstat ⊢
              exact howner j hj hjstat
        · -- pending_retx: the record leaves the pending-retx list
          have hp : h.status = harq_state_t.pending_retx := by
            cases hs : h.status with
            | empty => exact absurd hs hnotempty
            | waiting_ack => exact absurd hs hw
            | pending_retx => rfl
          have hip : i ∈ st.harq_pending_retx_list := by
            have := hcp i hi
            rw [hgd, hp] at this
            exact this rfl
          refine ⟨⟨?_, ?_, ?_⟩, ⟨?_, ?_, ?_, ?_, ?_, ?_⟩, ?_⟩
          · exact List.nodup_cons.mpr ⟨hinotfree, hnd⟩
          · intro j hj
            simp only [List.length_set]
            rcases List.mem_cons.mp hj with hj | hj
            · subst hj
              exact hi
            · exact hbound j hj
          · intro j hj
            simp only [List.length_set] at hj
            by_cases hji : j = i
            · subst hji
              simp only [List.mem_cons, true_or, true_iff]
              rw [getD_set_self _ _ hi]
            · simp only [List.mem_cons, hji, false_or]
              rw [getD_set_ne _ _ (fun hc => hji hc.symm)]
              exact hiff j hj
          · simp only [if_neg hw]
            exact hwlen
          · intro bidx hb
            simp only [if_neg hw] at *
            obtain ⟨hbnd, hbmem⟩ := hbk bidx hb
            constructor
            · exact hbnd
            · intro j hj
              obtain ⟨hjlen, hjstat, hjtime⟩ := hbmem j hj
              have hjne : j ≠ i := by
                intro hc
                subst hc
                rw [hgd, hp] at hjstat
                cases hjstat
              refine ⟨by simpa using hjlen, ?_, ?_⟩
              · rw [getD_set_ne _ _ (fun hc => hjne hc.symm)]
                exact hjstat
              · rw [getD_set_ne _ _ (fun hc => hjne hc.symm)]
                exact hjtime
          · intro j hj hjstat
            simp only [List.length_set] at hj
            simp only [if_neg hw]
            have hjne : j ≠ i := by
              intro hc
              subst hc
              rw [getD_set_self _ _ hi] at hjstat
              cases hjstat
            rw [getD_set_ne _ _ (fun hc => hjne hc.symm)] at hjstat ⊢
            exact hcw j hj hjstat
          · simp only [if_neg hw]
            exact List.Nodup.erase _ hndp
          · simp only [if_neg hw]
            intro j hj
            have hjne : j ≠ i := ((List.Nodup.mem_erase_iff hndp).mp hj).1
            have hjold : j ∈ st.harq_pending_retx_list := List.mem_of_mem_erase hj
            obtain ⟨hjlen, hjstat⟩ := hmp j hjold
            refine ⟨by simpa using hjlen, ?_⟩
            rw [getD_set_ne _ _ (fun hc => hjne hc.symm)]
            exact hjstat
          · simp only [if_neg hw]
            intro j hj hjstat
            simp only [List.length_set] at hj
            have hjne : j ≠ i := by
              intro hc
              subst hc
              rw [getD_set_self _ _ hi] at hjstat
              cases hjstat
            rw [getD_set_ne _ _ (fun hc => hjne hc.symm)] at hjstat
            exact (List.mem_erase_of_ne hjne).mpr (hcp j hj hjstat)
          · intro j hj hjstat
            simp only [List.length_set] at hj ⊢
            by_cases hji : j = i
            · subst hji
              rw [getD_set_self _ _ hi] at hjstat
              simp at hjstat
            · rw [getD_set_ne _ _ (fun hc => hji hc.symm)] at hjstat ⊢
              exact howner j hj hjstat

theorem repoInv_alloc (st : cell_harq_repository) (u sltx slack mretx : Nat)
    (hInv : RepoInv st) : RepoInv (st.alloc_harq u sltx slack mretx).1 := by
  unfold cell_harq_repository.alloc_harq
  split
  · exact hInv
  next ue heq =>
    split
    · exact hInv
    · exact hInv
    next i free_rest h_id ids_rest hfree hids =>
      dsimp only
      obtain ⟨⟨hnd, hbound, hiff⟩, ⟨hwlen, hbk, hcw, hndp, hmp, hcp⟩, howner⟩ := hInv
      have hifree : i ∈ st.free_harqs := by
        rw [hfree]
        exact List.mem_cons_self ..
      have hi : i < st.harqs.length := hbound i hifree
      have hstat : (st.harqs.getD i default).status = harq_state_t.empty := (hiff i hi).mp hifree
      have hinotw : ∀ bidx < st.harq_timeout_wheel.length,
          i ∉ st.harq_timeout_wheel.getD bidx [] := by
        intro bidx hb hmem
        have := ((hbk bidx hb).2 i hmem).2.1
        rw [hstat] at this
        cases this
      have hinotp : i ∉ st.harq_pending_retx_list := by
        intro hmem
        have := (hmp i hmem).2
        rw [hstat] at this
        cases this
      have hndrest : free_rest.Nodup ∧ i ∉ free_rest := by
        rw [hfree] at hnd
        exact ⟨(List.nodup_cons.mp hnd).2, (List.nodup_cons.mp hnd).1⟩
      refine ⟨⟨?_, ?_, ?_⟩, ⟨?_, ?_, ?_, ?_, ?_, ?_⟩, ?_⟩
      · exact hndrest.1
      · intro j hj
        simp only [List.length_set]
        exact hbound j (by rw [hfree]; exact List.mem_cons_of_mem _ hj)
      · intro j hj
        simp only [List.length_set] at hj
        by_cases hji : j = i
        · subst hji
          rw [getD_set_self _ _ hi]
          constructor
          · intro hmem
            exact (hndrest.2 hmem).elim
          · intro hc
            cases hc
        · rw [getD_set_ne _ _ (fun hc => hji hc.symm)]
          have : j ∈ free_rest ↔ j ∈ st.free_harqs := by
            rw [hfree]
            simp [List.mem_cons, hji]
          rw [this]
          exact hiff j hj
      · simp only [wheel_push_front_length]
        exact hwlen
      · intro bidx hb
        simp only [wheel_push_front_length] at hb ⊢
        by_cases hbeq : bidx = (slack + st.max_ack_wait_in_slots) % st.harq_timeout_wheel.length
        · have hbucket_eq : (wheel_push_front st.harq_timeout_wheel
              (slack + st.max_ack_wait_in_slots) i).getD bidx [] =
              i :: wheel_get st.harq_timeout_wheel (slack + st.max_ack_wait_in_slots) := by
            unfold wheel_push_front wheel_set
            rw [hbeq]
            exact getD_set_self _ _ (Nat.mod_lt _ hwlen)
          rw [hbucket_eq]
          have hoget : wheel_get st.harq_timeout_wheel (slack + st.max_ack_wait_in_slots) =
              st.harq_timeout_wheel.getD bidx [] := by
            unfold wheel_get
            rw [hbeq]
          obtain ⟨hbnd, hbmem⟩ := hbk bidx hb
          constructor
          · refine List.nodup_cons.mpr ⟨?_, hoget ▸ hbnd⟩
            rw [hoget]
            exact hinotw bidx hb
          · intro j hj
            rcases List.mem_cons.mp hj with hj | hj
            · subst hj
              refine ⟨by simpa using hi, ?_, ?_⟩
              · rw [getD_set_self _ _ hi]
              · rw [getD_set_self _ _ hi]
                exact hbeq.symm
            · have hjold := hbmem j (hoget ▸ hj)
              have hjne : j ≠ i := by
                intro hc
                subst hc
                rw [hstat] at hjold
                cases hjold.2.1
              refine ⟨by simpa using hjold.1, ?_, ?_⟩
              · rw [getD_set_ne _ _ (fun hc => hjne hc.symm)]
                exact hjold.2.1
              · rw [getD_set_ne _ _ (fun hc => hjne hc.symm)]
                exact hjold.2.2
        · have hbucket_eq : (wheel_push_front st.harq_timeout_wheel
              (slack + st.max_ack_wait_in_slots) i).getD bidx [] =
              st.harq_timeout_wheel.getD bidx [] := by
            unfold wheel_push_front wheel_set
            exact getD_set_ne _ _ (fun hc => hbeq hc.symm)
          rw [hbucket_eq]
          obtain ⟨hbnd, hbmem⟩ := hbk bidx hb
          refine ⟨hbnd, ?_⟩
          intro j hj
          obtain ⟨hjlen, hjstat, hjtime⟩ := hbmem j hj
          have hjne : j ≠ i := by
            intro hc
            subst hc
            rw [hstat] at hjstat
            cases hjstat
          refine ⟨by simpa using hjlen, ?_, ?_⟩
          · rw [getD_set_ne _ _ (fun hc => hjne hc.symm)]
            exact hjstat
          · rw [getD_set_ne _ _ (fun hc => hjne hc.symm)]
            exact hjtime
      · intro j hj hjstat
        simp only [List.length_set] at hj
        by_cases hji : j = i
        · subst hji
          rw [getD_set_self _ _ hi]
          unfold wheel_push_front
          rw [wheel_get_set_self _ hwlen rfl]
          exact List.mem_cons_self ..
        · rw [getD_set_ne _ _ (fun hc => hji hc.symm)] at hjstat ⊢
          have hmemold := hcw j hj hjstat
          by_cases hteq : (st.harqs.getD j default).slot_ack_timeout %
              st.harq_timeout_wheel.length =
              (slack + st.max_ack_wait_in_slots) % st.harq_timeout_wheel.length
          · unfold wheel_push_front
            rw [wheel_get_set_self _ hwlen hteq]
            refine List.mem_cons_of_mem _ ?_
            have : wheel_get st.harq_timeout_wheel (st.harqs.getD j default).slot_ack_timeout =
                wheel_get st.harq_timeout_wheel (slack + st.max_ack_wait_in_slots) := by
              unfold wheel_get
              rw [hteq]
            rw [← this]
            exact hmemold
          · unfold wheel_push_front
            rw [wheel_get_set_ne _ hteq]
            exact hmemold
      · exact hndp
      · intro j hj
        obtain ⟨hjlen, hjstat⟩ := hmp j hj
        have hjne : j ≠ i := by
          intro hc
          subst hc
          rw [hstat] at hjstat
          cases hjstat
        refine ⟨by simpa using hjlen, ?_⟩
        rw [getD_set_ne _ _ (fun hc => hjne hc.symm)]
        exact hjstat
      · intro j hj hjstat
        simp only [List.length_set] at hj
        by_cases hji : j = i
        · subst hji
          rw [getD_set_self _ _ hi] at hjstat
          cases hjstat
        · rw [getD_set_ne _ _ (fun hc => hji hc.symm)] at hjstat
          exact hcp j hj hjstat
      · intro j hj hjstat
        simp only [List.length_set] at hj ⊢
        by_cases hji : j = i
        · subst hji
          rw [getD_set_self _ _ hi]
          exact lt_length_of_getElem? heq
        · rw [getD_set_ne _ _ (fun hc => hji hc.symm)] at hjstat ⊢
          exact howner j hj hjstat

theorem repoInv_set_pending (st : cell_harq_repository) (i : Nat) (hInv : RepoInv st) :
    RepoInv (st.set_pending_retx i) := by
  unfold cell_harq_repository.set_pending_retx
  split
  · exact hInv
  next h heq =>
    split
    · exact hInv
    next hnotp =>
      split
      · exact hInv
      next hnote =>
        obtain ⟨⟨hnd, hbound, hiff⟩, ⟨hwlen, hbk, hcw, hndp, hmp, hcp⟩, howner⟩ := hInv
        have hi : i < st.harqs.length := lt_length_of_getElem? heq
        have hgd : st.harqs.getD i default = h := getD_eq_of_getElem? heq _
        have hw : h.status = harq_state_t.waiting_ack := by
          cases hs : h.status with
          | empty => exact absurd hs hnote
          | waiting_ack => rfl
          | pending_retx => exact absurd hs hnotp
        have hinotfree : i ∉ st.free_harqs := fun hmem => by
          have := (hiff i hi).mp hmem
          rw [hgd, hw] at this
          cases this
        have hinotp : i ∉ st.harq_pending_retx_list := fun hmem => by
          have := (hmp i hmem).2
          rw [hgd, hw] at this
          cases this
        refine ⟨⟨?_, ?_, ?_⟩, ⟨?_, ?_, ?_, ?_, ?_, ?_⟩, ?_⟩
        · exact hnd
        · intro j hj
          simp only [List.length_set]
          exact hbound j hj
        · intro j hj
          simp only [List.length_set] at hj
          by_cases hji : j = i
          · subst hji
            rw [getD_set_self _ _ hi]
            constructor
            · intro hmem
              exact (hinotfree hmem).elim
            · intro hc
              cases hc
          · rw [getD_set_ne _ _ (fun hc => hji hc.symm)]
            exact hiff j hj
        · simp only [wheel_pop_length]
          exact hwlen
        · intro bidx hb
          simp only [wheel_pop_length] at hb ⊢
          obtain ⟨hbnd, hbmem⟩ := hbk bidx hb
          by_cases hbeq : bidx = h.slot_ack_timeout % st.harq_timeout_wheel.length
          · have hbucket_eq : (wheel_pop st.harq_timeout_wheel h.slot_ack_timeout i).getD bidx [] =
                (wheel_get st.harq_timeout_wheel h.slot_ack_timeout).erase i := by
              unfold wheel_pop wheel_set
              rw [hbeq]
              exact getD_set_self _ _ (Nat.mod_lt _ hwlen)
            rw [hbucket_eq]
            have hbold : wheel_get st.harq_timeout_wheel h.slot_ack_timeout =
                st.harq_timeout_wheel.getD bidx [] := by
              unfold wheel_get
              rw [hbeq]
            constructor
            · exact List.Nodup.erase _ (hbold ▸ hbnd)
            · intro j hj
              have hjne : j ≠ i := ((List.Nodup.mem_erase_iff (hbold ▸ hbnd)).mp hj).1
              have hjold : j ∈ st.harq_timeout_wheel.getD bidx [] := by
                rw [← hbold]
                exact List.mem_of_mem_erase hj
              obtain ⟨hjlen, hjstat, hjtime⟩ := hbmem j hjold
              refine ⟨by simpa using hjlen, ?_, ?_⟩
              · rw [getD_set_ne _ _ (fun hc => hjne hc.symm)]
                exact hjstat
              · rw [getD_set_ne _ _ (fun hc => hjne hc.symm)]
                exact hjtime
          · have hbucket_eq : (wheel_pop st.harq_timeout_wheel h.slot_ack_timeout i).getD bidx [] =
                st.harq_timeout_wheel.getD bidx [] := by
              unfold wheel_pop wheel_set
              exact getD_set_ne _ _ (fun hc => hbeq hc.symm)
            rw [hbucket_eq]
            refine ⟨hbnd, ?_⟩
            intro j hj
            obtain ⟨hjlen, hjstat, hjtime⟩ := hbmem j hj
            have hjne : j ≠ i := by
              intro hc
              subst hc
              rw [hgd] at hjtime
              exact hbeq hjtime.symm
            refine ⟨by simpa using hjlen, ?_, ?_⟩
            · rw [getD_set_ne _ _ (fun hc => hjne hc.symm)]
              exact hjstat
            · rw [getD_set_ne _ _ (fun hc => hjne hc.symm)]
              exact hjtime
        · intro j hj hjstat
          simp only [List.length_set] at hj
          have hjne : j ≠ i := by
            intro hc
            subst hc
            rw [getD_set_self _ _ hi] at hjstat
            cases hjstat
          rw [getD_set_ne _ _ (fun hc => hjne hc.symm)] at hjstat ⊢
          have hmemold := hcw j hj hjstat
          unfold wheel_pop
          by_cases hteq : (st.harqs.getD j default).slot_ack_timeout %
              st.harq_timeout_wheel.length = h.slot_ack_timeout % st.harq_timeout_wheel.length
          · rw [wheel_get_set_self _ hwlen hteq]
            have : wheel_get st.harq_timeout_wheel (st.harqs.getD j default).slot_ack_timeout =
                wheel_get st.harq_timeout_wheel h.slot_ack_timeout := by
              unfold wheel_get
              rw [hteq]
            rw [this] at hmemold
            exact (List.mem_erase_of_ne hjne).mpr hmemold
          · rw [wheel_get_set_ne _ hteq]
            exact hmemold
        · exact List.nodup_cons.mpr ⟨hinotp, hndp⟩
        · intro j hj
          rcases List.mem_cons.mp hj with hj | hj
          · subst hj
            refine ⟨by simpa using hi, ?_⟩
            rw [getD_set_self _ _ hi]
          · obtain ⟨hjlen, hjstat⟩ := hmp j hj
            have hjne : j ≠ i := fun hc => hinotp (hc ▸ hj)
            refine ⟨by simpa using hjlen, ?_⟩
            rw [getD_set_ne _ _ (fun hc => hjne hc.symm)]
            exact hjstat
        · intro j hj hjstat
          simp only [List.length_set] at hj
          by_cases hji : j = i
          · subst hji
            exact List.mem_cons_self ..
          · rw [getD_set_ne _ _ (fun hc => hji hc.symm)] at hjstat
            exact List.mem_cons_of_mem _ (hcp j hj hjstat)
        · intro j hj hjstat
          simp only [List.length_set] at hj ⊢
          by_cases hji : j = i
          · subst hji
            rw [getD_set_self _ _ hi]
            have := howner j hj
            rw [hgd] at this
            exact this (by rw [hw]; intro hc; cases hc)
          · rw [getD_set_ne _ _ (fun hc => hji hc.symm)] at hjstat ⊢
            exact howner j hj hjstat

theorem getD_replicate {α : Type} {n i : Nat} (a : α) : (List.replicate n a).getD i a = a := by
  rcases Nat.lt_or_ge i n with h | h
  · rw [List.getD_eq_getElem _ _ (by simpa using h)]
    exact List.getElem_replicate ..
  · exact List.getD_eq_default _ _ (by simpa using h)

theorem repoInv_handle_ack (st : cell_harq_repository) (i : Nat) (ack : Bool)
    (hInv : RepoInv st) : RepoInv (st.handle_ack i ack) := by
  unfold cell_harq_repository.handle_ack
  split
  · exact hInv
  · split
    · exact repoInv_dealloc _ _ hInv
    · exact repoInv_set_pending _ _ hInv

theorem repoInv_handle_timeout (st : cell_harq_repository) (i : Nat)
    (hInv : RepoInv st) : RepoInv (st.handle_harq_ack_timeout i).1 := by
  unfold cell_harq_repository.handle_harq_ack_timeout
  split
  · exact hInv
  · exact repoInv_dealloc _ _ hInv

theorem repoInv_timeout_loop (l : List Nat) :
    ∀ st : cell_harq_repository, RepoInv st → RepoInv (cell_harq_repository.timeout_loop st l).1 := by
  induction l with
  | nil => intro st h; exact h
  | cons i rest ih =>
    intro st h
    exact ih _ (repoInv_handle_timeout st i h)

theorem repoInv_slot_indication (st : cell_harq_repository) (sl : Nat)
    (hInv : RepoInv st) : RepoInv (st.slot_indication sl).1 :=
  repoInv_timeout_loop _ st hInv

theorem repoInv_reserve (st : cell_harq_repository) (u n : Nat)
    (hInv : RepoInv st) : RepoInv (st.reserve_ue_harqs u n) := by
  unfold cell_harq_repository.reserve_ue_harqs
  split
  · exact hInv
  · refine ⟨hInv.1, hInv.2.1, ?_⟩
    intro j hj hs
    simp only [List.length_set]
    exact hInv.2.2 j hj hs

theorem repoInv_destroy_upto (u k : Nat) (st : cell_harq_repository)
    (hInv : RepoInv st) : RepoInv (cell_harq_repository.destroy_upto u k st) := by
  induction k with
  | zero => exact hInv
  | succ k ih =>
    unfold cell_harq_repository.destroy_upto
    dsimp only
    split
    · exact ih
    · exact repoInv_dealloc _ _ ih

theorem repoInv_destroy (st : cell_harq_repository) (u : Nat)
    (hInv : RepoInv st) : RepoInv (st.destroy_ue_harqs u) := by
  unfold cell_harq_repository.destroy_ue_harqs
  split
  · exact hInv
  next ue heq =>
    dsimp only
    split
    · exact repoInv_destroy_upto _ _ _ hInv
    next ue1 heq1 =>
      have h1 := repoInv_destroy_upto u ue.harqs.length st hInv
      refine ⟨h1.1, h1.2.1, ?_⟩
      intro j hj hs
      simp only [List.length_set]
      exact h1.2.2 j hj hs

theorem repoInv_step (st : cell_harq_repository) (op : repo_op)
    (hInv : RepoInv st) : RepoInv (st.step op) := by
  cases op with
  | reserve u n => exact repoInv_reserve _ _ _ hInv
  | alloc u a b c => exact repoInv_alloc _ _ _ _ _ hInv
  | ack i pos => exact repoInv_handle_ack _ _ _ hInv
  | dealloc i => exact repoInv_dealloc _ _ hInv
  | destroy u => exact repoInv_destroy _ _ hInv
  | slot_ind sl => exact repoInv_slot_indication _ _ hInv

theorem repoInv_run (ops : List repo_op) :
    ∀ st : cell_harq_repository, RepoInv st → RepoInv (st.run ops) := by
  induction ops with
  | nil => intro st h; exact h
  | cons op rest ih =>
    intro st h
    exact ih _ (repoInv_step st op h)

theorem repoInv_init (max_ues W : Nat) : RepoInv (cell_harq_repository.init max_ues W) := by
  unfold cell_harq_repository.init
  refine ⟨⟨List.nodup_range _, ?_, ?_⟩, ⟨?_, ?_, ?_, ?_, ?_, ?_⟩, ?_⟩
  · intro i hi
    simpa using hi
  · intro i hi
    simp only [List.length_replicate] at hi
    rw [getD_replicate]
    constructor
    · intro _
      rfl
    · intro _
      simpa using hi
  · simp [RING_SIZE]
  · intro bidx hb
    rw [getD_replicate]
    exact ⟨List.nodup_nil, by intro j hj; cases hj⟩
  · intro i hi hs
    rw [getD_replicate] at hs
    cases hs
  · exact List.nodup_nil
  · intro i hi
    cases hi
  · intro i hi hs
    rw [getD_replicate] at hs
    cases hs
  · intro i hi hs
    rw [getD_replicate] at hs
    exact absurd rfl hs

theorem sum_map_count_zero (i : Nat) :
    ∀ w : List (List Nat), (∀ b < w.length, (w.getD b []).count i = 0) →
      (w.map fun bkt => bkt.count i).sum = 0 := by
  intro w
  induction w with
  | nil => intro _; rfl
  | cons x rest ih =>
    intro h
    simp only [List.map_cons, List.sum_cons]
    have h0 := h 0 (Nat.succ_pos _)
    rw [List.getD_cons_zero] at h0
    rw [h0, ih fun b hb => by
      have := h (b + 1) (Nat.succ_lt_succ hb)
      rwa [List.getD_cons_succ] at this]

theorem sum_map_count_one (i : Nat) :
    ∀ (w : List (List Nat)) (b0 : Nat), b0 < w.length → (w.getD b0 []).count i = 1 →
      (∀ b < w.length, b ≠ b0 → (w.getD b []).count i = 0) →
      (w.map fun bkt => bkt.count i).sum = 1 := by
  intro w
  induction w with
  | nil => intro b0 hb0; cases hb0
  | cons x rest ih =>
    intro b0 hb0 h1 h0
    simp only [List.map_cons, List.sum_cons]
    cases b0 with
    | zero =>
      rw [List.getD_cons_zero] at h1
      rw [h1, sum_map_count_zero i rest fun b hb => by
        have := h0 (b + 1) (Nat.succ_lt_succ hb) (Nat.succ_ne_zero b)
        rwa [List.getD_cons_succ] at this]
    | succ b0 =>
      have hx : x.count i = 0 := by
        have := h0 0 (Nat.succ_pos _) (Ne.symm (Nat.succ_ne_zero b0))
        rwa [List.getD_cons_zero] at this
      rw [hx]
      rw [List.getD_cons_succ] at h1
      rw [ih b0 (Nat.lt_of_succ_lt_succ hb0) h1 fun b hb hbne => by
        have := h0 (b + 1) (Nat.succ_lt_succ hb) fun hc => hbne (Nat.succ_injective hc)
        rwa [List.getD_cons_succ] at this]

theorem wheel_count_one_of_waiting (st : cell_harq_repository) (i : Nat)
    (hInv : RepoInv st) (hi : i < st.harqs.length)
    (hw : (st.harqs.getD i default).status = harq_state_t.waiting_ack) :
    wheel_count st i = 1 := by
  obtain ⟨_, ⟨hwlen, hbk, hcw, _, _, _⟩, _⟩ := hInv
  have hmem : i ∈ st.harq_timeout_wheel.getD
      ((st.harqs.getD i default).slot_ack_timeout % st.harq_timeout_wheel.length) [] := by
    have := hcw i hi hw
    unfold wheel_get at this
    exact this
  have hb0 : (st.harqs.getD i default).slot_ack_timeout % st.harq_timeout_wheel.length <
      st.harq_timeout_wheel.length := Nat.mod_lt _ hwlen
  refine sum_map_count_one i st.harq_timeout_wheel _ hb0 ?_ ?_
  · exact List.count_eq_one_of_mem (hbk _ hb0).1 hmem
  · intro b hb hbne
    refine List.count_eq_zero.mpr fun hmemb => ?_
    have := ((hbk b hb).2 i hmemb).2.2
    exact hbne this.symm
theorem wheel_count_zero_of_not_waiting (st : cell_harq_repository) (i : Nat)
    (hInv : RepoInv st)
    (hw : (st.harqs.getD i default).status ≠ harq_state_t.waiting_ack) :
    wheel_count st i = 0 := by
  obtain ⟨_, ⟨hwlen, hbk, _, _, _, _⟩, _⟩ := hInv
  refine sum_map_count_zero i st.harq_timeout_wheel fun b hb => ?_
  refine List.count_eq_zero.mpr fun hmemb => ?_
  exact hw ((hbk b hb).2 i hmemb).2.1

theorem pending_count_one_of_pending (st : cell_harq_repository) (i : Nat)
    (hInv : RepoInv st) (hi : i < st.harqs.length)
    (hp : (st.harqs.getD i default).status = harq_state_t.pending_retx) :
    pending_count st i = 1 := by
  obtain ⟨_, ⟨_, _, _, hndp, _, hcp⟩, _⟩ := hInv
  exact List.count_eq_one_of_mem hndp (hcp i hi hp)

theorem pending_count_zero_of_not_pending (st : cell_harq_repository) (i : Nat)
    (hInv : RepoInv st)
    (hp : (st.harqs.getD i default).status ≠ harq_state_t.pending_retx) :
    pending_count st i = 0 := by
  obtain ⟨_, ⟨_, _, _, _, hmp, _⟩, _⟩ := hInv
  exact List.count_eq_zero.mpr fun hmem => hp (hmp i hmem).2

/-- C2: in every repository state reachable by a sequence of operations from
a freshly constructed repository, a record in waiting_ack state occurs exactly
once in the timeout wheel and not at all in the pending-retx list; a record in
pending_retx state occurs exactly once in the pending-retx list and not at all
in the timeout wheel; an empty record occurs in neither structure. -/
theorem exclusive_membership (max_ues W : Nat) (ops : List repo_op) (i : Nat) :
    ((((cell_harq_repository.init max_ues W).run ops).harqs.getD i default).status =
        harq_state_t.waiting_ack →
      wheel_count ((cell_harq_repository.init max_ues W).run ops) i = 1 ∧
        pending_count ((cell_harq_repository.init max_ues W).run ops) i = 0) ∧
    ((((cell_harq_repository.init max_ues W).run ops).harqs.getD i default).status =
        harq_state_t.pending_retx →
      wheel_count ((cell_harq_repository.init max_ues W).run ops) i = 0 ∧
        pending_count ((cell_harq_repository.init max_ues W).run ops) i = 1) ∧
    ((((cell_harq_repository.init max_ues W).run ops).harqs.getD i default).status =
        harq_state_t.empty →
      wheel_count ((cell_harq_repository.init max_ues W).run ops) i = 0 ∧
        pending_count ((cell_harq_repository.init max_ues W).run ops) i = 0) := by
  have hInv := repoInv_run ops _ (repoInv_init max_ues W)
  refine ⟨fun hs => ⟨?_, ?_⟩, fun hs => ⟨?_, ?_⟩, fun hs => ⟨?_, ?_⟩⟩
  · have hi : i < ((cell_harq_repository.init max_ues W).run ops).harqs.length := by
      by_contra hge
      rw [List.getD_eq_default _ _ (Nat.le_of_not_lt hge)] at hs
      cases hs
    exact wheel_count_one_of_waiting _ _ hInv hi hs
  · refine pending_count_zero_of_not_pending _ _ hInv ?_
    rw [hs]
    intro hc
    cases hc
  · refine wheel_count_zero_of_not_waiting _ _ hInv ?_
    rw [hs]
    intro hc
    cases hc
  · have hi : i < ((cell_harq_repository.init max_ues W).run ops).harqs.length := by
      by_contra hge
      rw [List.getD_eq_default _ _ (Nat.le_of_not_lt hge)] at hs
      cases hs
    exact pending_count_one_of_pending _ _ hInv hi hs
  · refine wheel_count_zero_of_not_waiting _ _ hInv ?_
    rw [hs]
    intro hc
    cases hc
  · refine pending_count_zero_of_not_pending _ _ hInv ?_
    rw [hs]
    intro hc
    cases hc

/-- Witness for C2 at a concrete reachable state: after reserving terminal 0
and allocating one process, record 0 is waiting_ack, occurs once in the
timeout wheel and not in the pending-retx list. -/
theorem exclusive_membership_witness :
    ((((cell_harq_repository.init 1 8).run
        [repo_op.reserve 0 16, repo_op.alloc 0 100 104 4]).harqs.getD 0 default).status =
      harq_state_t.waiting_ack) ∧
    wheel_count ((cell_harq_repository.init 1 8).run
      [repo_op.reserve 0 16, repo_op.alloc 0 100 104 4]) 0 = 1 ∧
    pending_count ((cell_harq_repository.init 1 8).run
      [repo_op.reserve 0 16, repo_op.alloc 0 100 104 4]) 0 = 0 :=
  ⟨by decide,
   (exclusive_membership 1 8 [repo_op.reserve 0 16, repo_op.alloc 0 100 104 4] 0).1 (by decide)⟩

theorem ueInv_dealloc (st : cell_harq_repository) (i : Nat) (hUe : UeInv st) :
    UeInv (st.dealloc_harq i) := by
  unfold cell_harq_repository.dealloc_harq
  split
  · exact hUe
  next h heq =>
    split
    · exact hUe
    next hnotempty =>
      split
      · exact hUe
      next ue heq2 =>
        have hi : i < st.harqs.length := lt_length_of_getElem? heq
        have hgd : st.harqs.getD i default = h := getD_eq_of_getElem? heq _
        have hulen : h.ue_idx < st.ues.length := lt_length_of_getElem? heq2
        have hued : st.ues.getD h.ue_idx default = ue := getD_eq_of_getElem? heq2 _
        obtain ⟨hmapU, hfreeU⟩ := hUe h.ue_idx hulen
        unfold ueMapInv at hmapU
        unfold ueFreeInv at hfreeU
        rw [hued] at hmapU hfreeU
        have hstatne : (st.harqs.getD i default).status ≠ harq_state_t.empty := by
          rw [hgd]
          exact hnotempty
        have hkey := hmapU.2 i hi hstatne (by rw [hgd])
        rw [hgd] at hkey
        intro u hu
        simp only [List.length_set] at hu
        by_cases huu : u = h.ue_idx
        · subst huu
          unfold ueMapInv ueFreeInv
          rw [getD_set_self _ _ hulen]
          dsimp only
          refine ⟨⟨?_, ?_⟩, ?_, ?_, ?_, ?_, ?_⟩
          · -- map entries point at live records
            intro pid hpid
            simp only [List.length_set] at hpid
            by_cases hph : pid = h.h_id
            · subst hph
              rw [getD_set_self _ _ hkey.1]
              intro a ha
              cases ha
            · rw [getD_set_ne _ _ (fun hc => hph hc.symm)]
              intro j hj
              obtain ⟨hjlen, hjstat, hjue, hjid⟩ := hmapU.1 pid hpid j hj
              have hjne : j ≠ i := by
                intro hc
                subst hc
                rw [hgd] at hjid
                exact hph hjid.symm
              refine ⟨by simpa using hjlen, ?_, ?_, ?_⟩ <;>
                rw [getD_set_ne _ _ (fun hc => hjne hc.symm)]
              · exact hjstat
              · exact hjue
              · exact hjid
          · -- live records are indexed
            intro j hj hjstat hjue
            simp only [List.length_set] at hj
            have hjne : j ≠ i := by
              intro hc
              subst hc
              rw [getD_set_self _ _ hi] at hjstat
              exact hjstat rfl
            rw [getD_set_ne _ _ (fun hc => hjne hc.symm)] at hjstat hjue ⊢
            obtain ⟨hlt, hmap⟩ := hmapU.2 j hj hjstat hjue
            have hidne : (st.harqs.getD j default).h_id ≠ h.h_id := by
              intro hc
              rw [hc] at hmap
              rw [hkey.2] at hmap
              exact hjne (Option.some_inj.mp hmap).symm
            refine ⟨by simpa using hlt, ?_⟩
            rw [getD_set_ne _ _ (fun hc => hidne hc.symm)]
            exact hmap
          · -- free id list stays duplicate-free
            refine List.nodup_cons.mpr ⟨?_, hfreeU.1⟩
            intro hmem
            have := (hfreeU.2.2.1 h.h_id hmem).2
            rw [hkey.2] at this
            cases this
          · simpa using hfreeU.2.1
          · intro pid hpid
            rcases List.mem_cons.mp hpid with hph | hpm
            · have hlt : pid < ue.harqs.length := by
                rw [hph]
                exact hkey.1
              have hne2 : ue.harqs.getD pid none ≠ none := by
                rw [hph, hkey.2]
                intro hc
                cases hc
              refine ⟨hfreeU.2.2.2.2 pid hlt hne2, ?_⟩
              rw [hph, getD_set_self _ _ hkey.1]
            · obtain ⟨hlt, hnone⟩ := hfreeU.2.2.1 pid hpm
              refine ⟨hlt, ?_⟩
              by_cases hph : pid = h.h_id
              · subst hph
                rw [getD_set_self _ _ hkey.1]
              · rw [getD_set_ne _ _ (fun hc => hph hc.symm)]
                exact hnone
          · intro pid hpid hnone
            by_cases hph : pid = h.h_id
            · subst hph
              exact List.mem_cons_self ..
            · rw [getD_set_ne _ _ (fun hc => hph hc.symm)] at hnone
              exact List.mem_cons_of_mem _ (hfreeU.2.2.2.1 pid hpid hnone)
          · intro pid hpid hne
            simp only [List.length_set] at hpid
            by_cases hph : pid = h.h_id
            · subst hph
              rw [getD_set_self _ _ hkey.1] at hne
              exact absurd rfl hne
            · rw [getD_set_ne _ _ (fun hc => hph hc.symm)] at hne
              exact hfreeU.2.2.2.2 pid hpid hne
        · -- a different terminal: its index and free list are untouched
          obtain ⟨hmapO, hfreeO⟩ := hUe u hu
          unfold ueMapInv at hmapO
          unfold ueFreeInv at hfreeO
          unfold ueMapInv ueFreeInv
          rw [getD_set_ne _ _ (fun hc => huu hc.symm)]
          refine ⟨⟨?_, ?_⟩, hfreeO.1, hfreeO.2.1, hfreeO.2.2.1, hfreeO.2.2.2.1,
            hfreeO.2.2.2.2⟩
          · intro pid hpid
            intro j hj
            obtain ⟨hjlen, hjstat, hjue, hjid⟩ := hmapO.1 pid hpid j hj
            have hjne : j ≠ i := by
              intro hc
              subst hc
              rw [hgd] at hjue
              exact huu hjue.symm
            refine ⟨by simpa using hjlen, ?_, ?_, ?_⟩ <;>
              rw [getD_set_ne _ _ (fun hc => hjne hc.symm)]
            · exact hjstat
            · exact hjue
            · exact hjid
          · intro j hj hjstat hjue
            simp only [List.length_set] at hj
            have hjne : j ≠ i := by
              intro hc
              subst hc
              rw [getD_set_self _ _ hi] at hjstat
              exact hjstat rfl
            rw [getD_set_ne _ _ (fun hc => hjne hc.symm)] at hjstat hjue ⊢
            exact hmapO.2 j hj hjstat hjue

theorem ueInv_alloc (st : cell_harq_repository) (u sltx slack mretx : Nat)
    (hInv : RepoInv st) (hUe : UeInv st) : UeInv (st.alloc_harq u sltx slack mretx).1 := by
  unfold cell_harq_repository.alloc_harq
  split
  · exact hUe
  next ue heq =>
    split
    · exact hUe
    · exact hUe
    next i free_rest h_id ids_rest hfree hids =>
      dsimp only
      have hulen : u < st.ues.length := lt_length_of_getElem? heq
      have hued : st.ues.getD u default = ue := getD_eq_of_getElem? heq _
      obtain ⟨⟨hnd, hbound, hiff⟩, _, _⟩ := hInv
      have hifree : i ∈ st.free_harqs := by
        rw [hfree]
        exact List.mem_cons_self ..
      have hi : i < st.harqs.length := hbound i hifree
      have hstat : (st.harqs.getD i default).status = harq_state_t.empty := (hiff i hi).mp hifree
      obtain ⟨hmapU, hfreeU⟩ := hUe u hulen
      unfold ueMapInv at hmapU
      unfold ueFreeInv at hfreeU
      rw [hued] at hmapU hfreeU
      have hhid_mem : h_id ∈ ue.free_harq_ids := by
        rw [hids]
        exact List.mem_cons_self ..
      have hhid := hfreeU.2.2.1 h_id hhid_mem
      have hhid_lt_len : h_id < ue.harqs.length := Nat.lt_of_lt_of_le hhid.1 hfreeU.2.1
      have hids_nd : ids_rest.Nodup ∧ h_id ∉ ids_rest := by
        have := hfreeU.1
        rw [hids] at this
        exact ⟨(List.nodup_cons.mp this).2, (List.nodup_cons.mp this).1⟩
      intro v hv
      simp only [List.length_set] at hv
      by_cases hvu : v = u
      · subst hvu
        unfold ueMapInv ueFreeInv
        rw [getD_set_self _ _ hulen]
        dsimp only
        refine ⟨⟨?_, ?_⟩, ?_, ?_, ?_, ?_, ?_⟩
        · intro pid hpid
          simp only [List.length_set] at hpid
          by_cases hph : pid = h_id
          · rw [hph, getD_set_self _ _ hhid_lt_len]
            intro j hj
            have hji : j = i := (Option.some_inj.mp hj).symm
            subst hji
            refine ⟨by simpa using hi, ?_, ?_, ?_⟩
            · rw [getD_set_self _ _ hi]
              intro hc
              cases hc
            · rw [getD_set_self _ _ hi]
            · rw [getD_set_self _ _ hi]
          · rw [getD_set_ne _ _ (fun hc => hph hc.symm)]
            intro j hj
            obtain ⟨hjlen, hjstat, hjue, hjid⟩ := hmapU.1 pid hpid j hj
            have hjne : j ≠ i := by
              intro hc
              subst hc
              exact hjstat hstat
            refine ⟨by simpa using hjlen, ?_, ?_, ?_⟩ <;>
              rw [getD_set_ne _ _ (fun hc => hjne hc.symm)]
            · exact hjstat
            · exact hjue
            · exact hjid
        · intro j hj hjstat hjue
          simp only [List.length_set] at hj
          by_cases hji : j = i
          · rw [hji, getD_set_self _ _ hi]
            refine ⟨by simpa using hhid_lt_len, ?_⟩
            rw [getD_set_self _ _ hhid_lt_len]
          · rw [getD_set_ne _ _ (fun hc => hji hc.symm)] at hjstat hjue ⊢
            obtain ⟨hlt, hmap⟩ := hmapU.2 j hj hjstat hjue
            have hidne : (st.harqs.getD j default).h_id ≠ h_id := by
              intro hc
              rw [hc, hhid.2] at hmap
              cases hmap
            refine ⟨by simpa using hlt, ?_⟩
            rw [getD_set_ne _ _ (fun hc => hidne hc.symm)]
            exact hmap
        · exact hids_nd.1
        · simpa using hfreeU.2.1
        · intro pid hpid
          have hpmem : pid ∈ ue.free_harq_ids := by
            rw [hids]
            exact List.mem_cons_of_mem _ hpid
          obtain ⟨hlt, hnone⟩ := hfreeU.2.2.1 pid hpmem
          have hph : pid ≠ h_id := fun hc => hids_nd.2 (hc ▸ hpid)
          refine ⟨hlt, ?_⟩
          rw [getD_set_ne _ _ (fun hc => hph hc.symm)]
          exact hnone
        · intro pid hpid hnone
          have hph : pid ≠ h_id := by
            intro hc
            rw [hc, getD_set_self _ _ hhid_lt_len] at hnone
            cases hnone
          rw [getD_set_ne _ _ (fun hc => hph hc.symm)] at hnone
          have := hfreeU.2.2.2.1 pid hpid hnone
          rw [hids] at this
          rcases List.mem_cons.mp this with hc | hc
          · exact absurd hc hph
          · exact hc
        · intro pid hpid hne
          simp only [List.length_set] at hpid
          by_cases hph : pid = h_id
          · rw [hph]
            exact hhid.1
          · rw [getD_set_ne _ _ (fun hc => hph hc.symm)] at hne
            exact hfreeU.2.2.2.2 pid hpid hne
      · obtain ⟨hmapO, hfreeO⟩ := hUe v hv
        unfold ueMapInv at hmapO
        unfold ueFreeInv at hfreeO
        unfold ueMapInv ueFreeInv
        rw [getD_set_ne _ _ (fun hc => hvu hc.symm)]
        refine ⟨⟨?_, ?_⟩, hfreeO.1, hfreeO.2.1, hfreeO.2.2.1, hfreeO.2.2.2.1,
          hfreeO.2.2.2.2⟩
        · intro pid hpid
          intro j hj
          obtain ⟨hjlen, hjstat, hjue, hjid⟩ := hmapO.1 pid hpid j hj
          have hjne : j ≠ i := by
            intro hc
            subst hc
            exact hjstat hstat
          refine ⟨by simpa using hjlen, ?_, ?_, ?_⟩ <;>
            rw [getD_set_ne _ _ (fun hc => hjne hc.symm)]
          · exact hjstat
          · exact hjue
          · exact hjid
        · intro j hj hjstat hjue
          simp only [List.length_set] at hj
          by_cases hji : j = i
          · rw [hji, getD_set_self _ _ hi] at hjue
            exact absurd hjue.symm hvu
          · rw [getD_set_ne _ _ (fun hc => hji hc.symm)] at hjstat hjue ⊢
            exact hmapO.2 j hj hjstat hjue

theorem ueInv_set_pending (st : cell_harq_repository) (i : Nat) (hUe : UeInv st) :
    UeInv (st.set_pending_retx i) := by
  unfold cell_harq_repository.set_pending_retx
  split
  · exact hUe
  next h heq =>
    split
    · exact hUe
    next hnotp =>
      split
      · exact hUe
      next hnote =>
        have hi : i < st.harqs.length := lt_length_of_getElem? heq
        have hgd : st.harqs.getD i default = h := getD_eq_of_getElem? heq _
        intro v hv
        obtain ⟨hmapO, hfreeO⟩ := hUe v hv
        unfold ueMapInv at hmapO
        unfold ueMapInv ueFreeInv
        refine ⟨⟨?_, ?_⟩, hfreeO.1, hfreeO.2.1, hfreeO.2.2.1, hfreeO.2.2.2.1,
          hfreeO.2.2.2.2⟩
        · intro pid hpid
          intro j hj
          obtain ⟨hjlen, hjstat, hjue, hjid⟩ := hmapO.1 pid hpid j hj
          by_cases hji : j = i
          · subst hji
            rw [hgd] at hjstat hjue hjid
            refine ⟨by simpa using hjlen, ?_, ?_, ?_⟩ <;> rw [getD_set_self _ _ hi]
            all_goals first
              | (intro hc; cases hc)
              | exact hjue
              | exact hjid
          · refine ⟨by simpa using hjlen, ?_, ?_, ?_⟩ <;>
              rw [getD_set_ne _ _ (fun hc => hji hc.symm)]
            · exact hjstat
            · exact hjue
            · exact hjid
        · intro j hj hjstat hjue
          simp only [List.length_set] at hj
          by_cases hji : j = i
          · subst hji
            rw [getD_set_self _ _ hi] at hjue ⊢
            have hstatne : (st.harqs.getD j default).status ≠ harq_state_t.empty := by
              rw [hgd]
              exact hnote
            have := hmapO.2 j hj hstatne (by rw [hgd]; exact hjue)
            rw [hgd] at this
            exact this
          · rw [getD_set_ne _ _ (fun hc => hji hc.symm)] at hjstat hjue ⊢
            exact hmapO.2 j hj hjstat hjue

theorem ueInv_handle_ack (st : cell_harq_repository) (i : Nat) (ack : Bool)
    (hUe : UeInv st) : UeInv (st.handle_ack i ack) := by
  unfold cell_harq_repository.handle_ack
  split
  · exact hUe
  · split
    · exact ueInv_dealloc _ _ hUe
    · exact ueInv_set_pending _ _ hUe

theorem ueInv_handle_timeout (st : cell_harq_repository) (i : Nat)
    (hUe : UeInv st) : UeInv (st.handle_harq_ack_timeout i).1 := by
  unfold cell_harq_repository.handle_harq_ack_timeout
  split
  · exact hUe
  · exact ueInv_dealloc _ _ hUe

theorem ueInv_timeout_loop (l : List Nat) :
    ∀ st : cell_harq_repository, UeInv st → UeInv (cell_harq_repository.timeout_loop st l).1 := by
  induction l with
  | nil => intro st h; exact h
  | cons i rest ih =>
    intro st h
    exact ih _ (ueInv_handle_timeout st i h)

theorem ueInv_slot_indication (st : cell_harq_repository) (sl : Nat)
    (hUe : UeInv st) : UeInv (st.slot_indication sl).1 :=
  ueInv_timeout_loop _ st hUe

theorem getD_replicate_lt {α : Type} {n u : Nat} (a d : α) (h : u < n) :
    (List.replicate n a).getD u d = a := by
  rw [List.getD_eq_getElem _ _ (by simpa using h)]
  exact List.getElem_replicate ..

theorem dealloc_getD_ne (st : cell_harq_repository) {i j : Nat} (hne : j ≠ i) :
    (st.dealloc_harq i).harqs.getD j default = st.harqs.getD j default := by
  unfold cell_harq_repository.dealloc_harq
  split
  · rfl
  · split
    · rfl
    · split
      · rfl
      · exact getD_set_ne _ _ fun hc => hne hc.symm

theorem dealloc_status_self (st : cell_harq_repository) (i : Nat)
    (hne : (st.harqs.getD i default).status ≠ harq_state_t.empty)
    (hi : i < st.harqs.length)
    (hu : (st.harqs.getD i default).ue_idx < st.ues.length) :
    ((st.dealloc_harq i).harqs.getD i default).status = harq_state_t.empty := by
  unfold cell_harq_repository.dealloc_harq
  split
  next heq =>
    rw [List.getElem?_eq_none_iff] at heq
    exact absurd hi (Nat.not_lt_of_le heq)
  next h heq =>
    have hgd : st.harqs.getD i default = h := getD_eq_of_getElem? heq _
    split
    next hempty =>
      rw [hgd] at hne
      exact absurd hempty hne
    next =>
      split
      next heq2 =>
        rw [List.getElem?_eq_none_iff] at heq2
        rw [hgd] at hu
        exact absurd hu (Nat.not_lt_of_le heq2)
      next ue heq2 =>
        rw [getD_set_self _ _ hi]

theorem dealloc_map_none_or_same (st : cell_harq_repository) (i u pid : Nat) :
    ((st.dealloc_harq i).ues.getD u default).harqs.getD pid none = none ∨
    ((st.dealloc_harq i).ues.getD u default).harqs.getD pid none =
      (st.ues.getD u default).harqs.getD pid none := by
  unfold cell_harq_repository.dealloc_harq
  split
  · exact Or.inr rfl
  next h heq =>
    split
    · exact Or.inr rfl
    · split
      · exact Or.inr rfl
      next ue heq2 =>
        have hulen : h.ue_idx < st.ues.length := lt_length_of_getElem? heq2
        have hued : st.ues.getD h.ue_idx default = ue := getD_eq_of_getElem? heq2 _
        by_cases huu : u = h.ue_idx
        · subst huu
          rw [getD_set_self _ _ hulen]
          dsimp only
          by_cases hph : pid = h.h_id
          · rw [hph]
            rcases Nat.lt_or_ge h.h_id ue.harqs.length with hlt | hge
            · exact Or.inl (getD_set_self _ _ hlt)
            · right
              rw [hued]
              rw [List.getD_eq_default _ _ (by simpa using hge), List.getD_eq_default _ _ hge]
          · right
            rw [getD_set_ne _ _ (fun hc => hph hc.symm), hued]
        · right
          rw [getD_set_ne _ _ (fun hc => huu hc.symm)]

theorem dealloc_map_length (st : cell_harq_repository) (i u : Nat) :
    ((st.dealloc_harq i).ues.getD u default).harqs.length =
      (st.ues.getD u default).harqs.length := by
  unfold cell_harq_repository.dealloc_harq
  split
  · rfl
  next h heq =>
    split
    · rfl
    · split
      · rfl
      next ue heq2 =>
        have hulen : h.ue_idx < st.ues.length := lt_length_of_getElem? heq2
        have hued : st.ues.getD h.ue_idx default = ue := getD_eq_of_getElem? heq2 _
        by_cases huu : u = h.ue_idx
        · subst huu
          rw [getD_set_self _ _ hulen, hued]
          dsimp only
          exact List.length_set ..
        · rw [getD_set_ne _ _ (fun hc => huu hc.symm)]

theorem destroy_upto_map_length (u v k : Nat) (st : cell_harq_repository) :
    ((cell_harq_repository.destroy_upto u k st).ues.getD v default).harqs.length =
      (st.ues.getD v default).harqs.length := by
  induction k with
  | zero => rfl
  | succ k ih =>
    unfold cell_harq_repository.destroy_upto
    dsimp only
    split
    · exact ih
    · rw [dealloc_map_length]
      exact ih

theorem ueInv_destroy_upto (u : Nat) (k : Nat) (st : cell_harq_repository)
    (hInv : RepoInv st) (hUe : UeInv st) :
    UeInv (cell_harq_repository.destroy_upto u k st) ∧
    RepoInv (cell_harq_repository.destroy_upto u k st) ∧
    ∀ pid < k,
      ((cell_harq_repository.destroy_upto u k st).ues.getD u default).harqs.getD pid none =
        none := by
  induction k with
  | zero => exact ⟨hUe, hInv, fun pid h => absurd h (Nat.not_lt_zero _)⟩
  | succ k ih =>
    obtain ⟨ihUe, ihInv, ihnone⟩ := ih
    unfold cell_harq_repository.destroy_upto
    dsimp only
    split
    next hnone =>
      refine ⟨ihUe, ihInv, ?_⟩
      intro pid hpid
      rcases Nat.lt_succ_iff_lt_or_eq.mp hpid with hlt | heqk
      · exact ihnone pid hlt
      · rw [heqk]
        exact hnone
    next j hsome =>
      set st1 := cell_harq_repository.destroy_upto u k st with hst1
      refine ⟨ueInv_dealloc _ _ ihUe, repoInv_dealloc _ _ ihInv, ?_⟩
      have hulen1 : u < st1.ues.length := by
        by_contra hge
        rw [List.getD_eq_default _ _ (Nat.le_of_not_lt hge)] at hsome
        rw [show (default : ue_harq_entity_impl).harqs = [] from rfl, List.getD_nil] at hsome
        cases hsome
      have hklen : k < (st1.ues.getD u default).harqs.length := by
        by_contra hge
        rw [List.getD_eq_default _ _ (Nat.le_of_not_lt hge)] at hsome
        cases hsome
      have hmapU := (ihUe u hulen1).1
      unfold ueMapInv at hmapU
      obtain ⟨hjlen, hjstat, hjue, hjid⟩ := hmapU.1 k hklen j hsome
      intro pid hpid
      rcases Nat.lt_succ_iff_lt_or_eq.mp hpid with hlt | heqk
      · rcases dealloc_map_none_or_same st1 j u pid with hc | hc
        · exact hc
        · rw [hc]
          exact ihnone pid hlt
      · rw [heqk]
        cases hx : ((st1.dealloc_harq j).ues.getD u default).harqs.getD k none with
        | none => rfl
        | some j2 =>
          exfalso
          have hUe2 := ueInv_dealloc _ j ihUe
          have hulen2 : u < (st1.dealloc_harq j).ues.length := by
            have hsh := (dealloc_shape st1 j).2.1
            rw [← hsh]
            exact hulen1
          have hmap2 := (hUe2 u hulen2).1
          unfold ueMapInv at hmap2
          have hklen2 : k < ((st1.dealloc_harq j).ues.getD u default).harqs.length := by
            rw [dealloc_map_length]
            exact hklen
          obtain ⟨hj2len, hj2stat, hj2ue, hj2id⟩ := hmap2.1 k hklen2 j2 hx
          by_cases hjj : j2 = j
          · have hstat2 : ((st1.dealloc_harq j).harqs.getD j default).status =
                harq_state_t.empty :=
              dealloc_status_self st1 j hjstat hjlen (by rw [hjue]; exact hulen1)
            exact hj2stat (by rw [hjj]; exact hstat2)
          · have hsame : (st1.dealloc_harq j).harqs.getD j2 default =
                st1.harqs.getD j2 default := dealloc_getD_ne st1 hjj
            rw [hsame] at hj2stat hj2ue hj2id
            have hj2len1 : j2 < st1.harqs.length := by
              have hsh := (dealloc_shape st1 j).1
              rw [hsh]
              exact hj2len
            have hinv2 := hmapU.2 j2 hj2len1 hj2stat hj2ue
            rw [hj2id] at hinv2
            rw [hsome] at hinv2
            exact hjj (Option.some_inj.mp hinv2.2).symm

theorem ueInv_destroy (st : cell_harq_repository) (u : Nat)
    (hInv : RepoInv st) (hUe : UeInv st) : UeInv (st.destroy_ue_harqs u) := by
  unfold cell_harq_repository.destroy_ue_harqs
  split
  · exact hUe
  next ue heq =>
    dsimp only
    split
    · exact (ueInv_destroy_upto u ue.harqs.length st hInv hUe).1
    next ue1 heq1 =>
      obtain ⟨hUe1, hInv1, hnone⟩ := ueInv_destroy_upto u ue.harqs.length st hInv hUe
      set st1 := cell_harq_repository.destroy_upto u ue.harqs.length st with hst1
      have hulen1 : u < st1.ues.length := lt_length_of_getElem? heq1
      have hued1 : st1.ues.getD u default = ue1 := getD_eq_of_getElem? heq1 _
      have hlen_eq : ue1.harqs.length = ue.harqs.length := by
        have hl := destroy_upto_map_length u u ue.harqs.length st
        rw [← hst1, hued1, getD_eq_of_getElem? heq] at hl
        exact hl
      have hallnone : ∀ pid < ue1.harqs.length, ue1.harqs.getD pid none = none := by
        intro pid hpid
        rw [hlen_eq] at hpid
        have hp := hnone pid hpid
        rw [hued1] at hp
        exact hp
      intro v hv
      simp only [List.length_set] at hv
      by_cases hvu : v = u
      · rw [hvu]
        unfold ueMapInv ueFreeInv
        rw [getD_set_self _ _ hulen1]
        dsimp only
        refine ⟨⟨?_, ?_⟩, ?_, ?_, ?_, ?_, ?_⟩
        · intro pid hpid j hj
          rw [hallnone pid hpid] at hj
          cases hj
        · intro j hj hjstat hjue
          have hmap1 := (hUe1 u hulen1).1
          unfold ueMapInv at hmap1
          have hk := hmap1.2 j hj hjstat hjue
          rw [hued1] at hk
          rw [hallnone _ hk.1] at hk
          cases hk.2
        · exact List.nodup_nil
        · exact Nat.zero_le _
        · intro pid hpid
          cases hpid
        · intro pid hpid
          exact absurd hpid (Nat.not_lt_zero _)
        · intro pid hpid hne
          exact absurd (hallnone pid hpid) hne
      · obtain ⟨hmapO, hfreeO⟩ := hUe1 v hv
        unfold ueMapInv at hmapO
        unfold ueFreeInv at hfreeO
        unfold ueMapInv ueFreeInv
        rw [getD_set_ne _ _ (fun hc => hvu hc.symm)]
        exact ⟨hmapO, hfreeO⟩

theorem ueInv_reserve (st : cell_harq_repository) (u n : Nat) (hUe : UeInv st)
    (hn : n ≤ (st.ues.getD u default).harqs.length)
    (hall : ∀ pid < (st.ues.getD u default).harqs.length,
      (st.ues.getD u default).harqs.getD pid none = none) :
    UeInv (st.reserve_ue_harqs u n) := by
  unfold cell_harq_repository.reserve_ue_harqs
  split
  · exact hUe
  next ue heq =>
    have hulen : u < st.ues.length := lt_length_of_getElem? heq
    have hued : st.ues.getD u default = ue := getD_eq_of_getElem? heq _
    rw [hued] at hn hall
    intro v hv
    simp only [List.length_set] at hv
    by_cases hvu : v = u
    · rw [hvu]
      obtain ⟨hmapU, hfreeU⟩ := hUe u hulen
      unfold ueMapInv at hmapU
      rw [hued] at hmapU
      unfold ueMapInv ueFreeInv
      rw [getD_set_self _ _ hulen]
      dsimp only
      refine ⟨⟨?_, ?_⟩, ?_, ?_, ?_, ?_, ?_⟩
      · intro pid hpid j hj
        rw [hall pid hpid] at hj
        cases hj
      · intro j hj hjstat hjue
        have hk := hmapU.2 j hj hjstat hjue
        rw [hall _ hk.1] at hk
        cases hk.2
      · exact List.nodup_range n
      · exact hn
      · intro pid hpid
        have hlt := List.mem_range.mp hpid
        exact ⟨hlt, hall pid (Nat.lt_of_lt_of_le hlt hn)⟩
      · intro pid hpid _
        exact List.mem_range.mpr hpid
      · intro pid hpid hne
        exact absurd (hall pid hpid) hne
    · obtain ⟨hmapO, hfreeO⟩ := hUe v hv
      unfold ueMapInv at hmapO
      unfold ueFreeInv at hfreeO
      unfold ueMapInv ueFreeInv
      rw [getD_set_ne _ _ (fun hc => hvu hc.symm)]
      exact ⟨hmapO, hfreeO⟩

theorem ueInv_step (st : cell_harq_repository) (op : repo_op)
    (hInv : RepoInv st) (hUe : UeInv st) (hwf : wf_op st op = true) :
    UeInv (st.step op) := by
  cases op with
  | reserve u n =>
    unfold wf_op at hwf
    rw [Bool.and_eq_true] at hwf
    have hn : n ≤ (st.ues.getD u default).harqs.length := of_decide_eq_true hwf.1
    have hall0 := List.all_eq_true.mp hwf.2
    refine ueInv_reserve st u n hUe hn ?_
    intro pid hpid
    have hmem : (st.ues.getD u default).harqs.getD pid none ∈
        (st.ues.getD u default).harqs := by
      rw [List.getD_eq_getElem _ _ hpid]
      exact List.getElem_mem ..
    exact Option.isNone_iff_eq_none.mp (hall0 _ hmem)
  | alloc u a b c => exact ueInv_alloc _ _ _ _ _ hInv hUe
  | ack i pos => exact ueInv_handle_ack _ _ _ hUe
  | dealloc i => exact ueInv_dealloc _ _ hUe
  | destroy u => exact ueInv_destroy _ _ hInv hUe
  | slot_ind sl => exact ueInv_slot_indication _ _ hUe

theorem ueInv_run (ops : List repo_op) :
    ∀ st : cell_harq_repository, RepoInv st → UeInv st → wf_ops st ops = true →
      UeInv (st.run ops) := by
  induction ops with
  | nil => intro st _ hUe _; exact hUe
  | cons op rest ih =>
    intro st hInv hUe hwf
    unfold wf_ops at hwf
    rw [Bool.and_eq_true] at hwf
    exact ih _ (repoInv_step st op hInv) (ueInv_step st op hInv hUe hwf.1) hwf.2

theorem ueInv_init (max_ues W : Nat) : UeInv (cell_harq_repository.init max_ues W) := by
  intro u hu
  unfold cell_harq_repository.init at hu ⊢
  simp only [List.length_replicate] at hu
  unfold ueMapInv ueFreeInv
  rw [getD_replicate_lt _ _ hu]
  dsimp only
  refine ⟨⟨?_, ?_⟩, ?_, ?_, ?_, ?_, ?_⟩
  · intro pid hpid j hj
    rw [getD_replicate] at hj
    cases hj
  · intro j hj hjstat hjue
    rw [getD_replicate] at hjstat
    exact absurd rfl hjstat
  · exact List.nodup_nil
  · exact Nat.zero_le _
  · intro pid hpid
    cases hpid
  · intro pid hpid
    exact absurd hpid (Nat.not_lt_zero _)
  · intro pid hpid hne
    rw [getD_replicate] at hne
    exact absurd rfl hne

theorem free_add_nonempty (st : cell_harq_repository) (hInv : RepoInv st) :
    st.free_harqs.length + nof_nonempty st = st.harqs.length := by
  obtain ⟨⟨hnd, hbound, hiff⟩, _, _⟩ := hInv
  have htf : st.free_harqs.toFinset =
      (Finset.range st.harqs.length).filter fun i =>
        (st.harqs.getD i default).status = harq_state_t.empty := by
    ext a
    simp only [List.mem_toFinset, Finset.mem_filter, Finset.mem_range]
    constructor
    · intro ha
      exact ⟨hbound a ha, (hiff a (hbound a ha)).mp ha⟩
    · intro ha
      exact (hiff a ha.1).mpr ha.2
  have hlen : st.free_harqs.length =
      ((Finset.range st.harqs.length).filter fun i =>
        (st.harqs.getD i default).status = harq_state_t.empty).card := by
    rw [← htf]
    exact (List.toFinset_card_of_nodup hnd).symm
  rw [hlen]
  unfold nof_nonempty
  have hpart := Finset.filter_card_add_filter_neg_card_eq_card
    (s := Finset.range st.harqs.length)
    (p := fun i => (st.harqs.getD i default).status = harq_state_t.empty)
  rw [Finset.card_range] at hpart
  exact hpart

theorem nonempty_ue_le (st : cell_harq_repository) (u : Nat) (hUe : UeInv st)
    (hu : u < st.ues.length) :
    nof_nonempty_ue st u ≤ (st.ues.getD u default).nof_reserved := by
  obtain ⟨hmapU, hfreeU⟩ := hUe u hu
  unfold ueMapInv at hmapU
  unfold ueFreeInv at hfreeU
  unfold nof_nonempty_ue
  have hcard := Finset.card_le_card_of_injOn
    (s := (Finset.range st.harqs.length).filter fun i =>
      (st.harqs.getD i default).status ≠ harq_state_t.empty ∧
        (st.harqs.getD i default).ue_idx = u)
    (t := Finset.range (st.ues.getD u default).nof_reserved)
    (fun i => (st.harqs.getD i default).h_id) ?_ ?_
  · rw [Finset.card_range] at hcard
    exact hcard
  · intro i hi
    rw [Finset.mem_filter, Finset.mem_range] at hi
    have hk := hmapU.2 i hi.1 hi.2.1 hi.2.2
    rw [Finset.mem_range]
    exact hfreeU.2.2.2.2 _ hk.1 (by rw [hk.2]; intro hc; cases hc)
  · intro i hi j hj hij
    simp only [Finset.coe_filter, Set.mem_setOf_eq, Finset.mem_range] at hi hj
    have hki := hmapU.2 i hi.1 hi.2.1 hi.2.2
    have hkj := hmapU.2 j hj.1 hj.2.1 hj.2.2
    have hij2 : (st.harqs.getD i default).h_id = (st.harqs.getD j default).h_id := hij
    have hsome := hki.2
    rw [hij2, hkj.2] at hsome
    exact (Option.some_inj.mp hsome).symm

/-- C1 (amended): for every operation sequence from a fresh repository, the
global free-list size plus the number of non-empty records equals the pool
capacity; and provided every reservation targets a terminal that owns no
process (the admission discipline wf_ops), the number of non-empty records
owned by a terminal never exceeds its reserved process-id budget.  The claim
without the reservation proviso is refuted by pool_conservation_counterexample. -/
theorem pool_conservation_amended (max_ues W : Nat) (ops : List repo_op) (u : Nat) :
    ((cell_harq_repository.init max_ues W).run ops).free_harqs.length +
        nof_nonempty ((cell_harq_repository.init max_ues W).run ops) =
      MAX_NOF_HARQS * max_ues ∧
    (wf_ops (cell_harq_repository.init max_ues W) ops = true →
      nof_nonempty_ue ((cell_harq_repository.init max_ues W).run ops) u ≤
        (((cell_harq_repository.init max_ues W).run ops).ues.getD u default).nof_reserved) := by
  have hInv := repoInv_run ops _ (repoInv_init max_ues W)
  constructor
  · have h1 := free_add_nonempty _ hInv
    have hcap : ((cell_harq_repository.init max_ues W).run ops).harqs.length =
        MAX_NOF_HARQS * max_ues := by
      have hsh := (run_shape ops (cell_harq_repository.init max_ues W)).1
      rw [← hsh]
      unfold cell_harq_repository.init
      exact List.length_replicate ..
    rw [hcap] at h1
    exact h1
  · intro hwf
    have hUe := ueInv_run ops _ (repoInv_init max_ues W) (ueInv_init max_ues W) hwf
    rcases Nat.lt_or_ge u ((cell_harq_repository.init max_ues W).run ops).ues.length with
      hu | hu
    · exact nonempty_ue_le _ _ hUe hu
    · have hz : nof_nonempty_ue ((cell_harq_repository.init max_ues W).run ops) u = 0 := by
        unfold nof_nonempty_ue
        rw [Finset.card_eq_zero, Finset.filter_eq_empty_iff]
        intro i hi
        rw [Finset.mem_range] at hi
        intro hcontra
        have howner := hInv.2.2
        unfold InvOwner at howner
        have := howner i hi hcontra.1
        rw [hcontra.2] at this
        exact Nat.not_lt_of_le hu this
      rw [hz]
      exact Nat.zero_le _

/-- Counterexample to C1 as stated: reserving terminal 0 a budget of one
process, allocating, reserving again without destroying, and allocating again
leaves the terminal owning two non-empty records against a reserved budget of
one, so the per-terminal bound fails for this sequence of repository
operations. -/
theorem pool_conservation_counterexample :
    ¬ (nof_nonempty_ue ((cell_harq_repository.init 1 8).run double_reserve_ops) 0 ≤
        (((cell_harq_repository.init 1 8).run double_reserve_ops).ues.getD 0
          default).nof_reserved) := by
  decide

/-- Witness for the amended C1 on a concrete admissible sequence. -/
theorem pool_conservation_amended_witness :
    wf_ops (cell_harq_repository.init 1 8)
      [repo_op.reserve 0 16, repo_op.alloc 0 100 104 4] = true ∧
    ((cell_harq_repository.init 1 8).run
        [repo_op.reserve 0 16, repo_op.alloc 0 100 104 4]).free_harqs.length +
      nof_nonempty ((cell_harq_repository.init 1 8).run
        [repo_op.reserve 0 16, repo_op.alloc 0 100 104 4]) = MAX_NOF_HARQS * 1 ∧
    nof_nonempty_ue ((cell_harq_repository.init 1 8).run
        [repo_op.reserve 0 16, repo_op.alloc 0 100 104 4]) 0 ≤
      ((((cell_harq_repository.init 1 8).run
        [repo_op.reserve 0 16, repo_op.alloc 0 100 104 4])).ues.getD 0
          default).nof_reserved :=
  ⟨by decide,
   (pool_conservation_amended 1 8 [repo_op.reserve 0 16, repo_op.alloc 0 100 104 4] 0).1,
   (pool_conservation_amended 1 8 [repo_op.reserve 0 16, repo_op.alloc 0 100 104 4] 0).2
     (by decide)⟩

theorem handle_timeout_getD_ne (st : cell_harq_repository) {i j : Nat} (hne : i ≠ j) :
    (st.handle_harq_ack_timeout j).1.harqs.getD i default = st.harqs.getD i default := by
  unfold cell_harq_repository.handle_harq_ack_timeout
  split
  · rfl
  · exact dealloc_getD_ne st hne

theorem handle_timeout_events_ref (st : cell_harq_repository) (j : Nat) :
    ∀ e ∈ (st.handle_harq_ack_timeout j).2, e.harq_ref_idx = j := by
  unfold cell_harq_repository.handle_harq_ack_timeout
  split
  · intro e he
    cases he
  · intro e he
    split at he
    · rcases List.mem_singleton.mp he with rfl
      rfl
    · cases he

theorem handle_timeout_spec (st : cell_harq_repository) (i : Nat)
    (hi : i < st.harqs.length) :
    (st.handle_harq_ack_timeout i).1 = st.dealloc_harq i ∧
    (st.handle_harq_ack_timeout i).2 =
      (if st.max_ack_wait_in_slots ≠ 1 then
        [⟨i, (st.harqs.getD i default).ue_idx, (st.harqs.getD i default).ack_on_timeout⟩]
       else []) := by
  unfold cell_harq_repository.handle_harq_ack_timeout
  split
  next heq =>
    rw [List.getElem?_eq_none_iff] at heq
    exact absurd hi (Nat.not_lt_of_le heq)
  next h heq =>
    have hgd : st.harqs.getD i default = h := getD_eq_of_getElem? heq _
    rw [hgd]
    exact ⟨rfl, rfl⟩

theorem dealloc_mem_free (st : cell_harq_repository) (i : Nat)
    (hne : (st.harqs.getD i default).status ≠ harq_state_t.empty)
    (hi : i < st.harqs.length)
    (hue : (st.harqs.getD i default).ue_idx < st.ues.length) :
    i ∈ (st.dealloc_harq i).free_harqs := by
  unfold cell_harq_repository.dealloc_harq
  split
  next heq =>
    rw [List.getElem?_eq_none_iff] at heq
    exact absurd hi (Nat.not_lt_of_le heq)
  next h heq =>
    have hgd : st.harqs.getD i default = h := getD_eq_of_getElem? heq _
    split
    next hempty =>
      rw [hgd] at hne
      exact absurd hempty hne
    · split
      next heq2 =>
        rw [List.getElem?_eq_none_iff] at heq2
        rw [hgd] at hue
        exact absurd hue (Nat.not_lt_of_le heq2)
      next ue heq2 =>
        exact List.mem_cons_self ..

theorem dealloc_free_mono (st : cell_harq_repository) (i a : Nat)
    (ha : a ∈ st.free_harqs) : a ∈ (st.dealloc_harq i).free_harqs := by
  unfold cell_harq_repository.dealloc_harq
  split
  · exact ha
  · split
    · exact ha
    · split
      · exact ha
      · exact List.mem_cons_of_mem _ ha

theorem handle_timeout_free_mono (st : cell_harq_repository) (i a : Nat)
    (ha : a ∈ st.free_harqs) : a ∈ (st.handle_harq_ack_timeout i).1.free_harqs := by
  unfold cell_harq_repository.handle_harq_ack_timeout
  split
  · exact ha
  · exact dealloc_free_mono _ _ _ ha

theorem timeout_loop_free_mono (l : List Nat) :
    ∀ (st : cell_harq_repository) (a : Nat), a ∈ st.free_harqs →
      a ∈ (cell_harq_repository.timeout_loop st l).1.free_harqs := by
  induction l with
  | nil => intro st a ha; exact ha
  | cons j rest ih =>
    intro st a ha
    exact ih _ a (handle_timeout_free_mono st j a ha)

theorem timeout_loop_frame (l : List Nat) :
    ∀ (st : cell_harq_repository) (i : Nat), i ∉ l →
      (cell_harq_repository.timeout_loop st l).1.harqs.getD i default =
          st.harqs.getD i default ∧
      ∀ e ∈ (cell_harq_repository.timeout_loop st l).2, e.harq_ref_idx ≠ i := by
  induction l with
  | nil =>
    intro st i _
    exact ⟨rfl, fun e he => absurd he (List.not_mem_nil _)⟩
  | cons j rest ih =>
    intro st i hmem
    have hij : i ≠ j := fun hc => hmem (hc ▸ List.mem_cons_self ..)
    have hirest : i ∉ rest := fun hc => hmem (List.mem_cons_of_mem _ hc)
    unfold cell_harq_repository.timeout_loop
    dsimp only
    constructor
    · rw [(ih _ i hirest).1]
      exact handle_timeout_getD_ne st hij
    · intro e he
      rcases List.mem_append.mp he with he | he
      · rw [handle_timeout_events_ref st j e he]
        exact fun hc => hij hc.symm
      · exact (ih _ i hirest).2 e he

theorem timeout_loop_hits (l : List Nat) :
    ∀ (st : cell_harq_repository) (i : Nat), l.count i = 1 →
      (st.harqs.getD i default).status ≠ harq_state_t.empty →
      i < st.harqs.length →
      (st.harqs.getD i default).ue_idx < st.ues.length →
      ((cell_harq_repository.timeout_loop st l).1.harqs.getD i default).status =
          harq_state_t.empty ∧
      i ∈ (cell_harq_repository.timeout_loop st l).1.free_harqs ∧
      (cell_harq_repository.timeout_loop st l).2.filter
          (fun e => decide (e.harq_ref_idx = i)) =
        (if st.max_ack_wait_in_slots ≠ 1 then
          [⟨i, (st.harqs.getD i default).ue_idx, (st.harqs.getD i default).ack_on_timeout⟩]
         else []) := by
  induction l with
  | nil =>
    intro st i hcount
    simp [List.count_nil] at hcount
  | cons j rest ih =>
    intro st i hcount hne hi hue
    unfold cell_harq_repository.timeout_loop
    dsimp only
    by_cases hij : i = j
    · rw [← hij] at hcount ⊢
      have hrest0 : rest.count i = 0 := by
        rw [List.count_cons_self] at hcount
        exact Nat.succ_injective hcount
      have hnotrest : i ∉ rest := List.count_eq_zero.mp hrest0
      obtain ⟨hps, hpe⟩ := handle_timeout_spec st i hi
      rw [hps, hpe]
      have hframe := timeout_loop_frame rest (st.dealloc_harq i) i hnotrest
      refine ⟨?_, ?_, ?_⟩
      · rw [hframe.1]
        exact dealloc_status_self st i hne hi hue
      · exact timeout_loop_free_mono rest _ i (dealloc_mem_free st i hne hi hue)
      · rw [List.filter_append]
        have hq : (cell_harq_repository.timeout_loop (st.dealloc_harq i) rest).2.filter
            (fun e => decide (e.harq_ref_idx = i)) = [] := by
          rw [List.filter_eq_nil_iff]
          intro e he
          simp only [decide_eq_true_eq]
          exact hframe.2 e he
        rw [hq]
        split
        · simp
        · rfl
    · have hcrest : rest.count i = 1 := by
        rw [List.count_cons_of_ne hij] at hcount
        exact hcount
      have hsh := handle_timeout_shape st j
      have hgde := handle_timeout_getD_ne st hij
      have hne2 : ((st.handle_harq_ack_timeout j).1.harqs.getD i default).status ≠
          harq_state_t.empty := by
        rw [hgde]
        exact hne
      have hi2 : i < (st.handle_harq_ack_timeout j).1.harqs.length := by
        rw [← hsh.1]
        exact hi
      have hue2 : ((st.handle_harq_ack_timeout j).1.harqs.getD i default).ue_idx <
          (st.handle_harq_ack_timeout j).1.ues.length := by
        rw [hgde, ← hsh.2.1]
        exact hue
      obtain ⟨ih1, ih2, ih3⟩ := ih _ i hcrest hne2 hi2 hue2
      refine ⟨ih1, ih2, ?_⟩
      rw [List.filter_append]
      have hp0 : (st.handle_harq_ack_timeout j).2.filter
          (fun e => decide (e.harq_ref_idx = i)) = [] := by
        rw [List.filter_eq_nil_iff]
        intro e he
        simp only [decide_eq_true_eq]
        rw [handle_timeout_events_ref st j e he]
        exact fun hc => hij hc.symm
      rw [hp0, List.nil_append, ih3]
      rw [hgde, ← hsh.2.2.2]

/-- C3: a waiting_ack record that has received no acknowledgment (its
assumed-positive flag still false) is untouched by slot_indication for any
slot outside its timeout bucket, and is deallocated (status empty, index back
on the free list) exactly when slot_indication visits the bucket of
slot_ack_timeout, with the timeout notifier fired exactly once for it with
assumed-positive = false — unless the configured wait is 1, in which case no
notification is emitted.  The closed conjunct checks the spec scenario: a DL
allocation at slot 100 with k1 = 4 and maximum wait 8 has slot_ack_timeout
112, survives slot_indication for slots 101..111 unchanged, and at slot 112
fires the notifier once with assumed-positive = false, empties the record and
restores the DL free pool to its pre-allocation size. -/
theorem timeout_liveness (st : cell_harq_repository) (i s : Nat) (hInv : RepoInv st)
    (hi : i < st.harqs.length)
    (hw : (st.harqs.getD i default).status = harq_state_t.waiting_ack)
    (hao : (st.harqs.getD i default).ack_on_timeout = false) :
    (s % st.harq_timeout_wheel.length ≠
        (st.harqs.getD i default).slot_ack_timeout % st.harq_timeout_wheel.length →
      (st.slot_indication s).1.harqs.getD i default = st.harqs.getD i default ∧
      ∀ e ∈ (st.slot_indication s).2, e.harq_ref_idx ≠ i) ∧
    (s % st.harq_timeout_wheel.length =
        (st.harqs.getD i default).slot_ack_timeout % st.harq_timeout_wheel.length →
      ((st.slot_indication s).1.harqs.getD i default).status = harq_state_t.empty ∧
      i ∈ (st.slot_indication s).1.free_harqs ∧
      (st.slot_indication s).2.filter (fun e => decide (e.harq_ref_idx = i)) =
        (if st.max_ack_wait_in_slots ≠ 1 then
          [⟨i, (st.harqs.getD i default).ue_idx, false⟩]
         else [])) ∧
    ((ex_mgr2.dl.harqs.getD 0 default).slot_ack_timeout = 112 ∧
     (ex_mgr2.run_slots (List.range' 101 11)).dl.harqs.getD 0 default =
       ex_mgr2.dl.harqs.getD 0 default ∧
     ((ex_mgr2.run_slots (List.range' 101 11)).slot_indication 112).2.1 =
       [⟨0, 0, false⟩] ∧
     ((((ex_mgr2.run_slots (List.range' 101 11)).slot_indication 112).1.dl.harqs.getD 0
         default).status = harq_state_t.empty) ∧
     (((ex_mgr2.run_slots (List.range' 101 11)).slot_indication 112).1.dl.free_harqs.length =
       ex_mgr1.dl.free_harqs.length)) := by
  obtain ⟨hpool, ⟨hwlen, hbk, hcw, hndp, hmp, hcp⟩, howner⟩ := hInv
  refine ⟨?_, ?_, by decide⟩
  · intro hsne
    have hnotmem : i ∉ wheel_get st.harq_timeout_wheel s := by
      intro hmem
      unfold wheel_get at hmem
      have := ((hbk _ (Nat.mod_lt _ hwlen)).2 i hmem).2.2
      exact hsne this.symm
    unfold cell_harq_repository.slot_indication
    exact timeout_loop_frame _ st i hnotmem
  · intro hseq
    have hmem : i ∈ wheel_get st.harq_timeout_wheel s := by
      have hm := hcw i hi hw
      unfold wheel_get at hm ⊢
      rw [hseq]
      exact hm
    have hcount : (wheel_get st.harq_timeout_wheel s).count i = 1 := by
      refine List.count_eq_one_of_mem ?_ hmem
      unfold wheel_get
      exact (hbk _ (Nat.mod_lt _ hwlen)).1
    have hne : (st.harqs.getD i default).status ≠ harq_state_t.empty := by
      rw [hw]
      intro hc
      cases hc
    have hue : (st.harqs.getD i default).ue_idx < st.ues.length := howner i hi hne
    unfold cell_harq_repository.slot_indication
    obtain ⟨h1, h2, h3⟩ := timeout_loop_hits _ st i hcount hne hi hue
    refine ⟨h1, h2, ?_⟩
    rw [h3, hao]

/-- Witness for C3 at the concrete state of ex_repo2 (allocation at slot 100
with acknowledgment slot 104 and wait 8): slot_indication at 112 empties
record 0, returns it to the free list and emits exactly one notification with
assumed-positive = false. -/
theorem timeout_liveness_witness :
    RepoInv ex_repo2 ∧
    (((ex_repo2.slot_indication 112).1.harqs.getD 0 default).status =
        harq_state_t.empty ∧
      0 ∈ (ex_repo2.slot_indication 112).1.free_harqs ∧
      (ex_repo2.slot_indication 112).2.filter (fun e => decide (e.harq_ref_idx = 0)) =
        (if ex_repo2.max_ack_wait_in_slots ≠ 1 then
          [⟨0, (ex_repo2.harqs.getD 0 default).ue_idx, false⟩]
         else [])) :=
  ⟨by decide,
   (timeout_liveness ex_repo2 0 112 (by decide) (by decide) (by decide) (by decide)).2.1
     (by decide)⟩

theorem set_pending_status_self (st : cell_harq_repository) (i : Nat)
    (hi : i < st.harqs.length)
    (hw : (st.harqs.getD i default).status = harq_state_t.waiting_ack) :
    ((st.set_pending_retx i).harqs.getD i default).status = harq_state_t.pending_retx := by
  unfold cell_harq_repository.set_pending_retx
  split
  next heq =>
    rw [List.getElem?_eq_none_iff] at heq
    exact absurd hi (Nat.not_lt_of_le heq)
  next h heq =>
    have hgd : st.harqs.getD i default = h := getD_eq_of_getElem? heq _
    rw [hgd] at hw
    split
    next hp => rw [hp] at hw; cases hw
    next =>
      split
      next hp => rw [hp] at hw; cases hw
      next => rw [getD_set_self _ _ hi]

theorem set_pending_mem_pending (st : cell_harq_repository) (i : Nat)
    (hi : i < st.harqs.length)
    (hw : (st.harqs.getD i default).status = harq_state_t.waiting_ack) :
    i ∈ (st.set_pending_retx i).harq_pending_retx_list := by
  unfold cell_harq_repository.set_pending_retx
  split
  next heq =>
    rw [List.getElem?_eq_none_iff] at heq
    exact absurd hi (Nat.not_lt_of_le heq)
  next h heq =>
    have hgd : st.harqs.getD i default = h := getD_eq_of_getElem? heq _
    rw [hgd] at hw
    split
    next hp => rw [hp] at hw; cases hw
    next =>
      split
      next hp => rw [hp] at hw; cases hw
      next => exact List.mem_cons_self ..

theorem retx_le_dealloc (st : cell_harq_repository) (i : Nat)
    (h : ∀ j < st.harqs.length, (st.harqs.getD j default).nof_retxs ≤
      (st.harqs.getD j default).max_nof_harq_retxs) :
    ∀ j < (st.dealloc_harq i).harqs.length,
      ((st.dealloc_harq i).harqs.getD j default).nof_retxs ≤
        ((st.dealloc_harq i).harqs.getD j default).max_nof_harq_retxs := by
  intro j hj
  have hlen := (dealloc_shape st i).1
  rw [← hlen] at hj
  by_cases hji : j = i
  · subst hji
    unfold cell_harq_repository.dealloc_harq
    split
    · exact h j hj
    next hh heq =>
      have hgd : st.harqs.getD j default = hh := getD_eq_of_getElem? heq _
      split
      · exact h j hj
      · split
        · exact h j hj
        · rw [getD_set_self _ _ hj]
          have := h j hj
          rw [hgd] at this
          exact this
  · rw [dealloc_getD_ne st hji]
    exact h j hj

theorem retx_le_set_pending (st : cell_harq_repository) (i : Nat)
    (h : ∀ j < st.harqs.length, (st.harqs.getD j default).nof_retxs ≤
      (st.harqs.getD j default).max_nof_harq_retxs) :
    ∀ j < (st.set_pending_retx i).harqs.length,
      ((st.set_pending_retx i).harqs.getD j default).nof_retxs ≤
        ((st.set_pending_retx i).harqs.getD j default).max_nof_harq_retxs := by
  intro j hj
  have hlen := (set_pending_shape st i).1
  rw [← hlen] at hj
  by_cases hji : j = i
  · subst hji
    unfold cell_harq_repository.set_pending_retx
    split
    · exact h j hj
    next hh heq =>
      have hgd : st.harqs.getD j default = hh := getD_eq_of_getElem? heq _
      split
      · exact h j hj
      · split
        · exact h j hj
        · rw [getD_set_self _ _ hj]
          have := h j hj
          rw [hgd] at this
          exact this
  · have : (st.set_pending_retx i).harqs.getD j default = st.harqs.getD j default := by
      unfold cell_harq_repository.set_pending_retx
      split
      · rfl
      · split
        · rfl
        · split
          · rfl
          · exact getD_set_ne _ _ fun hc => hji hc.symm
    rw [this]
    exact h j hj

theorem retx_le_alloc (st : cell_harq_repository) (u a b c : Nat)
    (h : ∀ j < st.harqs.length, (st.harqs.getD j default).nof_retxs ≤
      (st.harqs.getD j default).max_nof_harq_retxs) :
    ∀ j < (st.alloc_harq u a b c).1.harqs.length,
      (((st.alloc_harq u a b c).1.harqs.getD j default)).nof_retxs ≤
        (((st.alloc_harq u a b c).1.harqs.getD j default)).max_nof_harq_retxs := by
  intro j hj
  have hlen := (alloc_shape st u a b c).1
  rw [← hlen] at hj
  unfold cell_harq_repository.alloc_harq
  split
  · exact h j hj
  · split
    · exact h j hj
    · exact h j hj
    next i free_rest h_id ids_rest hfree hids =>
      dsimp only
      by_cases hji : j = i
      · subst hji
        have hmem : j ∈ st.free_harqs := by
          rw [hfree]
          exact List.mem_cons_self ..
        rcases Nat.lt_or_ge j st.harqs.length with hlt | hge
        · rw [getD_set_self _ _ hlt]
          exact Nat.zero_le _
        · rw [List.getD_eq_default _ _ (by simpa using hge)]
          exact Nat.le_refl _
      · rw [getD_set_ne _ _ fun hc => hji hc.symm]
        exact h j hj

theorem retx_le_handle_ack (st : cell_harq_repository) (i : Nat) (ack : Bool)
    (h : ∀ j < st.harqs.length, (st.harqs.getD j default).nof_retxs ≤
      (st.harqs.getD j default).max_nof_harq_retxs) :
    ∀ j < (st.handle_ack i ack).harqs.length,
      ((st.handle_ack i ack).harqs.getD j default).nof_retxs ≤
        ((st.handle_ack i ack).harqs.getD j default).max_nof_harq_retxs := by
  unfold cell_harq_repository.handle_ack
  split
  · exact h
  · split
    · exact retx_le_dealloc _ _ h
    · exact retx_le_set_pending _ _ h

theorem retx_le_handle_timeout (st : cell_harq_repository) (i : Nat)
    (h : ∀ j < st.harqs.length, (st.harqs.getD j default).nof_retxs ≤
      (st.harqs.getD j default).max_nof_harq_retxs) :
    ∀ j < (st.handle_harq_ack_timeout i).1.harqs.length,
      ((st.handle_harq_ack_timeout i).1.harqs.getD j default).nof_retxs ≤
        ((st.handle_harq_ack_timeout i).1.harqs.getD j default).max_nof_harq_retxs := by
  unfold cell_harq_repository.handle_harq_ack_timeout
  split
  · exact h
  · exact retx_le_dealloc _ _ h

theorem retx_le_timeout_loop (l : List Nat) :
    ∀ st : cell_harq_repository,
      (∀ j < st.harqs.length, (st.harqs.getD j default).nof_retxs ≤
        (st.harqs.getD j default).max_nof_harq_retxs) →
      ∀ j < (cell_harq_repository.timeout_loop st l).1.harqs.length,
        ((cell_harq_repository.timeout_loop st l).1.harqs.getD j default).nof_retxs ≤
          ((cell_harq_repository.timeout_loop st l).1.harqs.getD j default).max_nof_harq_retxs := by
  induction l with
  | nil => intro st h; exact h
  | cons x rest ih =>
    intro st h
    exact ih _ (retx_le_handle_timeout st x h)

theorem retx_le_destroy_upto (u k : Nat) (st : cell_harq_repository)
    (h : ∀ j < st.harqs.length, (st.harqs.getD j default).nof_retxs ≤
      (st.harqs.getD j default).max_nof_harq_retxs) :
    ∀ j < (cell_harq_repository.destroy_upto u k st).harqs.length,
      ((cell_harq_repository.destroy_upto u k st).harqs.getD j default).nof_retxs ≤
        ((cell_harq_repository.destroy_upto u k st).harqs.getD j default).max_nof_harq_retxs := by
  induction k with
  | zero => exact h
  | succ k ih =>
    unfold cell_harq_repository.destroy_upto
    dsimp only
    split
    · exact ih
    · exact retx_le_dealloc _ _ ih

theorem retx_le_step (st : cell_harq_repository) (op : repo_op)
    (h : ∀ j < st.harqs.length, (st.harqs.getD j default).nof_retxs ≤
      (st.harqs.getD j default).max_nof_harq_retxs) :
    ∀ j < (st.step op).harqs.length,
      ((st.step op).harqs.getD j default).nof_retxs ≤
        ((st.step op).harqs.getD j default).max_nof_harq_retxs := by
  cases op with
  | reserve u n =>
    intro j hj
    have heq : (st.reserve_ue_harqs u n).harqs = st.harqs := by
      unfold cell_harq_repository.reserve_ue_harqs
      split <;> rfl
    have hj2 : j < st.harqs.length := by
      rw [show (st.step (repo_op.reserve u n)).harqs = st.harqs from heq] at hj
      exact hj
    show ((st.reserve_ue_harqs u n).harqs.getD j default).nof_retxs ≤
      ((st.reserve_ue_harqs u n).harqs.getD j default).max_nof_harq_retxs
    rw [heq]
    exact h j hj2
  | alloc u a b c => exact retx_le_alloc _ _ _ _ _ h
  | ack i pos => exact retx_le_handle_ack _ _ _ h
  | dealloc i => exact retx_le_dealloc _ _ h
  | destroy u =>
    show ∀ j < (st.destroy_ue_harqs u).harqs.length,
      ((st.destroy_ue_harqs u).harqs.getD j default).nof_retxs ≤
        ((st.destroy_ue_harqs u).harqs.getD j default).max_nof_harq_retxs
    unfold cell_harq_repository.destroy_ue_harqs
    split
    · exact h
    · dsimp only
      split
      · exact retx_le_destroy_upto _ _ _ h
      · intro j hj
        exact retx_le_destroy_upto _ _ _ h j hj
  | slot_ind sl => exact retx_le_timeout_loop _ _ h

theorem retx_le_run (ops : List repo_op) :
    ∀ st : cell_harq_repository,
      (∀ j < st.harqs.length, (st.harqs.getD j default).nof_retxs ≤
        (st.harqs.getD j default).max_nof_harq_retxs) →
      ∀ j < (st.run ops).harqs.length,
        ((st.run ops).harqs.getD j default).nof_retxs ≤
          ((st.run ops).harqs.getD j default).max_nof_harq_retxs := by
  induction ops with
  | nil => intro st h; exact h
  | cons op rest ih =>
    intro st h
    exact ih _ (retx_le_step st op h)

/-- C4: on a waiting_ack record, handle_ack with a positive acknowledgment
deallocates immediately; a negative acknowledgment with exhausted retry budget
also deallocates immediately; otherwise a negative acknowledgment moves the
record from the timeout wheel to the pending-retx list and sets its status to
pending_retx — so a retransmission is never staged beyond the budget — and in
every reachable repository state retransmission_count ≤ max_retransmissions. -/
theorem retry_budget_enforcement (st : cell_harq_repository) (i : Nat)
    (hInv : RepoInv st) (hi : i < st.harqs.length)
    (hw : (st.harqs.getD i default).status = harq_state_t.waiting_ack) :
    (((st.handle_ack i true).harqs.getD i default).status = harq_state_t.empty ∧
      i ∈ (st.handle_ack i true).free_harqs) ∧
    ((st.harqs.getD i default).nof_retxs ≥ (st.harqs.getD i default).max_nof_harq_retxs →
      ((st.handle_ack i false).harqs.getD i default).status = harq_state_t.empty ∧
      i ∈ (st.handle_ack i false).free_harqs) ∧
    ((st.harqs.getD i default).nof_retxs < (st.harqs.getD i default).max_nof_harq_retxs →
      ((st.handle_ack i false).harqs.getD i default).status = harq_state_t.pending_retx ∧
      i ∈ (st.handle_ack i false).harq_pending_retx_list ∧
      wheel_count (st.handle_ack i false) i = 0 ∧
      pending_count (st.handle_ack i false) i = 1) ∧
    (∀ (max_ues W : Nat) (ops : List repo_op) (j : Nat),
      j < ((cell_harq_repository.init max_ues W).run ops).harqs.length →
      (((cell_harq_repository.init max_ues W).run ops).harqs.getD j default).nof_retxs ≤
        (((cell_harq_repository.init max_ues W).run ops).harqs.getD j
          default).max_nof_harq_retxs) := by
  have hne : (st.harqs.getD i default).status ≠ harq_state_t.empty := by
    rw [hw]
    intro hc
    cases hc
  have hue : (st.harqs.getD i default).ue_idx < st.ues.length := by
    have howner := hInv.2.2
    unfold InvOwner at howner
    exact howner i hi hne
  have hred : ∀ b : Bool, st.handle_ack i b =
      if b ∨ (st.harqs.getD i default).nof_retxs ≥
          (st.harqs.getD i default).max_nof_harq_retxs then
        st.dealloc_harq i
      else st.set_pending_retx i := by
    intro b
    unfold cell_harq_repository.handle_ack
    split
    next heq =>
      rw [List.getElem?_eq_none_iff] at heq
      exact absurd hi (Nat.not_lt_of_le heq)
    next h heq =>
      rw [getD_eq_of_getElem? heq default]
  refine ⟨⟨?_, ?_⟩, fun hge => ⟨?_, ?_⟩, fun hlt => ?_, ?_⟩
  · rw [hred true, if_pos (Or.inl rfl)]
    exact dealloc_status_self st i hne hi hue
  · rw [hred true, if_pos (Or.inl rfl)]
    exact dealloc_mem_free st i hne hi hue
  · rw [hred false, if_pos (Or.inr hge)]
    exact dealloc_status_self st i hne hi hue
  · rw [hred false, if_pos (Or.inr hge)]
    exact dealloc_mem_free st i hne hi hue
  · have hcond : ¬((false : Bool) = true ∨ (st.harqs.getD i default).nof_retxs ≥
        (st.harqs.getD i default).max_nof_harq_retxs) := by
      intro hc
      rcases hc with hc | hc
      · cases hc
      · exact absurd hc (Nat.not_le_of_lt hlt)
    rw [hred false, if_neg hcond]
    have hInv2 := repoInv_set_pending st i hInv
    have hstat2 := set_pending_status_self st i hi hw
    have hi2 : i < (st.set_pending_retx i).harqs.length := by
      rw [← (set_pending_shape st i).1]
      exact hi
    refine ⟨hstat2, set_pending_mem_pending st i hi hw, ?_, ?_⟩
    · refine wheel_count_zero_of_not_waiting _ _ hInv2 ?_
      rw [hstat2]
      intro hc
      cases hc
    · exact pending_count_one_of_pending _ _ hInv2 hi2 hstat2
  · intro max_ues W ops j
    refine retx_le_run ops _ ?_ j
    intro j2 hj2
    unfold cell_harq_repository.init
    rw [getD_replicate]
    exact Nat.le.refl

/-- Witness for C4 at the concrete state of ex_repo2: the freshly allocated
record 0 (0 of 4 retransmissions used) moves to pending_retx on a negative
acknowledgment, leaving the timeout wheel. -/
theorem retry_budget_enforcement_witness :
    (RepoInv ex_repo2 ∧ 0 < ex_repo2.harqs.length ∧
      (ex_repo2.harqs.getD 0 default).status = harq_state_t.waiting_ack ∧
      (ex_repo2.harqs.getD 0 default).nof_retxs <
        (ex_repo2.harqs.getD 0 default).max_nof_harq_retxs) ∧
    (((ex_repo2.handle_ack 0 false).harqs.getD 0 default).status =
        harq_state_t.pending_retx ∧
      0 ∈ (ex_repo2.handle_ack 0 false).harq_pending_retx_list ∧
      wheel_count (ex_repo2.handle_ack 0 false) 0 = 0 ∧
      pending_count (ex_repo2.handle_ack 0 false) 0 = 1) :=
  ⟨⟨by decide, by decide, by decide, by decide⟩,
   (retry_budget_enforcement ex_repo2 0 (by decide) (by decide) (by decide)).2.2.1
     (by decide)⟩

theorem merge_fold_spec (reports : List (mac_harq_ack_report_status × Int)) :
    (spec_chosen reports = none ∧
      merge_ack_fold reports = (mac_harq_ack_report_status.dtx, none)) ∨
    (∃ b, spec_chosen reports = some b ∧ merge_ack_fold reports = (b.1, some b.2)) := by
  induction reports using List.reverseRecOn with
  | nil => exact Or.inl ⟨rfl, rfl⟩
  | append_singleton rs r ih =>
    unfold spec_chosen merge_ack_fold at ih ⊢
    rw [List.foldl_append, List.filter_append]
    simp only [List.foldl_cons, List.foldl_nil]
    by_cases hdtx : r.1 = mac_harq_ack_report_status.dtx
    · have hfilter : List.filter
          (fun r => decide (r.1 ≠ mac_harq_ack_report_status.dtx)) [r] = [] := by
        simp [hdtx]
      rw [hfilter, List.append_nil]
      have hstep : ∀ c l, merge_ack c l r.1 (some r.2) = (c, l) := by
        intro c l
        unfold merge_ack
        rw [if_neg]
        intro hc
        exact hc.1 hdtx
      rcases ih with ⟨hsc, hmf⟩ | ⟨b, hsc, hmf⟩
      · left
        rw [hmf, hstep]
        exact ⟨hsc, rfl⟩
      · right
        rw [hmf, hstep]
        exact ⟨b, hsc, rfl⟩
    · have hfilter : List.filter
          (fun r => decide (r.1 ≠ mac_harq_ack_report_status.dtx)) [r] = [r] := by
        simp [hdtx]
      rw [hfilter]
      rcases ih with ⟨hsc, hmf⟩ | ⟨b, hsc, hmf⟩
      · right
        refine ⟨r, ?_, ?_⟩
        · rw [List.argmax_concat, hsc]
        · rw [hmf]
          unfold merge_ack
          rw [if_pos]
          unfold ack_adopted
          exact ⟨hdtx, Or.inl rfl⟩
      · right
        by_cases hq : b.2 < r.2
        · refine ⟨r, ?_, ?_⟩
          · rw [List.argmax_concat, hsc]
            simp [hq]
          · rw [hmf]
            unfold merge_ack
            rw [if_pos]
            unfold ack_adopted
            refine ⟨hdtx, Or.inr ⟨?_, ?_⟩⟩
            · intro hc
              cases hc
            · simpa using hq
        · refine ⟨b, ?_, ?_⟩
          · rw [List.argmax_concat, hsc]
            simp [hq]
          · rw [hmf]
            unfold merge_ack
            rw [if_neg]
            unfold ack_adopted
            intro hc
            rcases hc.2 with hc2 | hc2
            · cases hc2
            · exact hq (by simpa using hc2.2)

theorem dealloc_chosen_self (st : cell_harq_repository) (i : Nat) :
    ((st.dealloc_harq i).harqs.getD i default).chosen_ack =
      (st.harqs.getD i default).chosen_ack := by
  unfold cell_harq_repository.dealloc_harq
  split
  · rfl
  next h heq =>
    split
    · rfl
    · split
      · rfl
      · rw [getD_set_self _ _ (lt_length_of_getElem? heq),
          getD_eq_of_getElem? heq default]

theorem set_pending_chosen_self (st : cell_harq_repository) (i : Nat) :
    ((st.set_pending_retx i).harqs.getD i default).chosen_ack =
      (st.harqs.getD i default).chosen_ack := by
  unfold cell_harq_repository.set_pending_retx
  split
  · rfl
  next h heq =>
    split
    · rfl
    · split
      · rfl
      · rw [getD_set_self _ _ (lt_length_of_getElem? heq),
          getD_eq_of_getElem? heq default]

theorem handle_ack_chosen_self (st : cell_harq_repository) (i : Nat) (ack : Bool) :
    ((st.handle_ack i ack).harqs.getD i default).chosen_ack =
      (st.harqs.getD i default).chosen_ack := by
  unfold cell_harq_repository.handle_ack
  split
  · rfl
  · split
    · exact dealloc_chosen_self _ _
    · exact set_pending_chosen_self _ _

/-- C5: folding any sequence of SNR-bearing decoded reports with the
dl_ack_info merge rule from the initial state written by new_dl_tx yields
exactly the spec decision — the non-dtx report of strictly highest quality,
ties broken in favor of the earliest-received report (the argmax of the
filtered list); dl_ack_info itself updates the record chosen outcome by that
merge rule; and on a two-occasion record, dl_ack_info(ack, 5) returns
no_update and a following dl_ack_info(nack, 3) returns acked. -/
theorem dl_codebook_merge_determinism
    (reports : List (mac_harq_ack_report_status × Int))
    (m : cell_harq_manager) (i : Nat) (a : mac_harq_ack_report_status) (s : Option Int) :
    ((∃ r ∈ reports, r.1 ≠ mac_harq_ack_report_status.dtx) →
      ∃ b, spec_chosen reports = some b ∧
        merge_ack_fold reports = (b.1, some b.2) ∧
        b ∈ reports.filter (fun r => decide (r.1 ≠ mac_harq_ack_report_status.dtx)) ∧
        (∀ r ∈ reports.filter (fun r => decide (r.1 ≠ mac_harq_ack_report_status.dtx)),
          r.2 ≤ b.2) ∧
        (∀ r ∈ reports.filter (fun r => decide (r.1 ≠ mac_harq_ack_report_status.dtx)),
          b.2 ≤ r.2 →
            @List.indexOf (mac_harq_ack_report_status × Int)
              (@instBEqOfDecidableEq _ _) b
              (reports.filter (fun r => decide (r.1 ≠ mac_harq_ack_report_status.dtx))) ≤
            @List.indexOf (mac_harq_ack_report_status × Int)
              (@instBEqOfDecidableEq _ _) r
              (reports.filter
                (fun r => decide (r.1 ≠ mac_harq_ack_report_status.dtx))))) ∧
    ((m.dl.harqs.getD i default).status = harq_state_t.waiting_ack →
      i < m.dl.harqs.length →
      ((m.dl_ack_info i a s).1.dl.harqs.getD i default).chosen_ack =
        (merge_ack (m.dl.harqs.getD i default).chosen_ack
          (m.dl.harqs.getD i default).last_pucch_snr a s).1) ∧
    ((ex_mgr_two_occ.dl_ack_info 0 mac_harq_ack_report_status.ack (some 5)).2 =
        status_update.no_update ∧
      (ex_mgr_two_occ_after1.dl_ack_info 0 mac_harq_ack_report_status.nack (some 3)).2 =
        status_update.acked) := by
  refine ⟨?_, ?_, by decide, by decide⟩
  · intro hex
    rcases merge_fold_spec reports with ⟨hsc, _⟩ | ⟨b, hsc, hmf⟩
    · exfalso
      obtain ⟨r, hr, hrdtx⟩ := hex
      have : r ∈ reports.filter
          (fun r => decide (r.1 ≠ mac_harq_ack_report_status.dtx)) := by
        rw [List.mem_filter]
        exact ⟨hr, by simpa using hrdtx⟩
      unfold spec_chosen at hsc
      rw [List.argmax_eq_none] at hsc
      rw [hsc] at this
      cases this
    · have hchar := List.argmax_eq_some_iff.mp (by unfold spec_chosen at hsc; exact hsc)
      exact ⟨b, hsc, hmf, hchar.1, hchar.2.1, hchar.2.2⟩
  · intro hw hi
    unfold cell_harq_manager.dl_ack_info
    split
    next heq =>
      rw [List.getElem?_eq_none_iff] at heq
      exact absurd hi (Nat.not_lt_of_le heq)
    next h heq =>
      have hgd : m.dl.harqs.getD i default = h := getD_eq_of_getElem? heq default
      rw [if_neg (by rw [hgd] at hw; intro hc; exact hc hw)]
      dsimp only
      split
      · rw [show ({ m.dl with harqs := m.dl.harqs.set i { h with
            chosen_ack := (merge_ack h.chosen_ack h.last_pucch_snr a s).1,
            last_pucch_snr := (merge_ack h.chosen_ack h.last_pucch_snr a s).2 } } :
              cell_harq_repository).handle_ack i
            (decide (({ h with
              chosen_ack := (merge_ack h.chosen_ack h.last_pucch_snr a s).1,
              last_pucch_snr :=
                (merge_ack h.chosen_ack h.last_pucch_snr a s).2 } :
                harq_type).chosen_ack = mac_harq_ack_report_status.ack)) =
            ({ m.dl with harqs := m.dl.harqs.set i { h with
              chosen_ack := (merge_ack h.chosen_ack h.last_pucch_snr a s).1,
              last_pucch_snr :=
                (merge_ack h.chosen_ack h.last_pucch_snr a s).2 } } :
              cell_harq_repository).handle_ack i
            (decide (({ h with
              chosen_ack := (merge_ack h.chosen_ack h.last_pucch_snr a s).1,
              last_pucch_snr :=
                (merge_ack h.chosen_ack h.last_pucch_snr a s).2 } :
                harq_type).chosen_ack = mac_harq_ack_report_status.ack)) from rfl]
        rw [handle_ack_chosen_self]
        rw [getD_set_self _ _ hi, hgd]
      · rw [getD_set_self _ _ hi, hgd]

/-- Witness for C5: on the concrete waiting record of ex_mgr2, dl_ack_info
updates the chosen outcome by the merge rule. -/
theorem dl_codebook_merge_determinism_witness :
    ((ex_mgr2.dl.harqs.getD 0 default).status = harq_state_t.waiting_ack ∧
      0 < ex_mgr2.dl.harqs.length) ∧
    ((ex_mgr2.dl_ack_info 0 mac_harq_ack_report_status.ack (some 5)).1.dl.harqs.getD 0
        default).chosen_ack =
      (merge_ack (ex_mgr2.dl.harqs.getD 0 default).chosen_ack
        (ex_mgr2.dl.harqs.getD 0 default).last_pucch_snr mac_harq_ack_report_status.ack
        (some 5)).1 :=
  ⟨⟨by decide, by decide⟩,
   (dl_codebook_merge_determinism [] ex_mgr2 0 mac_harq_ack_report_status.ack
     (some 5)).2.1 (by decide) (by decide)⟩

/-- C6: a dl_ack_info or ul_crc_info call on a record that is not in
waiting_ack state (duplicate, stale, or never allocated — including an index
outside the pool) returns the distinguishable error result (error
respectively -1) and leaves the manager state completely unchanged. -/
theorem protocol_violation_atomicity (m : cell_harq_manager) (i j : Nat)
    (a : mac_harq_ack_report_status) (s : Option Int) (crc : Bool) :
    (opt_forall m.dl.harqs[i]? (fun h => h.status ≠ harq_state_t.waiting_ack) →
      m.dl_ack_info i a s = (m, status_update.error)) ∧
    (opt_forall m.ul.harqs[j]? (fun h => h.status ≠ harq_state_t.waiting_ack) →
      m.ul_crc_info j crc = (m, -1)) := by
  constructor
  · intro hna
    unfold opt_forall at hna
    unfold cell_harq_manager.dl_ack_info
    split
    · rfl
    next h heq =>
      rw [if_pos (hna h heq)]
  · intro hna
    unfold opt_forall at hna
    unfold cell_harq_manager.ul_crc_info
    split
    · rfl
    next h heq =>
      rw [if_pos (hna h heq)]

/-- Witness for C6 on the freshly constructed manager, where record 0 has
never been allocated. -/
theorem protocol_violation_atomicity_witness :
    (opt_forall ex_mgr0.dl.harqs[0]? fun h => h.status ≠ harq_state_t.waiting_ack) ∧
    ex_mgr0.dl_ack_info 0 mac_harq_ack_report_status.ack (some 5) =
      (ex_mgr0, status_update.error) ∧
    ex_mgr0.ul_crc_info 0 true = (ex_mgr0, -1) :=
  ⟨by decide,
   (protocol_violation_atomicity ex_mgr0 0 0 mac_harq_ack_report_status.ack (some 5)
     true).1 (by decide),
   (protocol_violation_atomicity ex_mgr0 0 0 mac_harq_ack_report_status.ack (some 5)
     true).2 (by decide)⟩

theorem sum_count_set (i : Nat) :
    ∀ (w : List (List Nat)) (b0 : Nat), b0 < w.length → ∀ newb : List Nat,
      ((w.set b0 newb).map fun b => b.count i).sum + (w.getD b0 []).count i =
        (w.map fun b => b.count i).sum + newb.count i := by
  intro w
  induction w with
  | nil => intro b0 hb0; cases hb0
  | cons x rest ih =>
    intro b0 hb0 newb
    cases b0 with
    | zero =>
      simp only [List.set_cons_zero, List.map_cons, List.sum_cons, List.getD_cons_zero]
      omega
    | succ b0 =>
      simp only [List.set_cons_succ, List.map_cons, List.sum_cons, List.getD_cons_succ]
      have := ih b0 (Nat.lt_of_succ_lt_succ hb0) newb
      omega

/-- C7: dl_ack_info on a waiting_ack downlink record with more than one
outstanding acknowledgment occasion decrements the occasion count, records
whether the merged outcome so far is positive as the timeout default, moves
the record from its current timeout-wheel bucket to the bucket of the
shortened deadline last_sl_tx + SHORT_ACK_TIMEOUT_DTX (it still appears in
the wheel exactly once, and not in the pending-retx list), and returns
no_update. -/
theorem nonfinal_ack_occasion_handling (m : cell_harq_manager) (i : Nat)
    (a : mac_harq_ack_report_status) (s : Option Int)
    (hInv : RepoInv m.dl) (hi : i < m.dl.harqs.length)
    (hw : (m.dl.harqs.getD i default).status = harq_state_t.waiting_ack)
    (hmore : 1 < (m.dl.harqs.getD i default).pucch_ack_to_receive) :
    (m.dl_ack_info i a s).2 = status_update.no_update ∧
    ((m.dl_ack_info i a s).1.dl.harqs.getD i default).pucch_ack_to_receive =
      (m.dl.harqs.getD i default).pucch_ack_to_receive - 1 ∧
    ((m.dl_ack_info i a s).1.dl.harqs.getD i default).ack_on_timeout =
      decide ((merge_ack (m.dl.harqs.getD i default).chosen_ack
        (m.dl.harqs.getD i default).last_pucch_snr a s).1 =
          mac_harq_ack_report_status.ack) ∧
    ((m.dl_ack_info i a s).1.dl.harqs.getD i default).slot_ack_timeout =
      m.last_sl_tx + SHORT_ACK_TIMEOUT_DTX ∧
    ((m.dl_ack_info i a s).1.dl.harqs.getD i default).status =
      harq_state_t.waiting_ack ∧
    i ∈ wheel_get (m.dl_ack_info i a s).1.dl.harq_timeout_wheel
      (m.last_sl_tx + SHORT_ACK_TIMEOUT_DTX) ∧
    wheel_count (m.dl_ack_info i a s).1.dl i = 1 ∧
    pending_count (m.dl_ack_info i a s).1.dl i = 0 := by
  have hwlen : 0 < m.dl.harq_timeout_wheel.length := hInv.2.1.1
  have hcw := hInv.2.1.2.2.1
  have hbk := hInv.2.1.2.1
  have hmem : i ∈ wheel_get m.dl.harq_timeout_wheel
      (m.dl.harqs.getD i default).slot_ack_timeout := hcw i hi hw
  have hbcount : (wheel_get m.dl.harq_timeout_wheel
      (m.dl.harqs.getD i default).slot_ack_timeout).count i = 1 := by
    refine List.count_eq_one_of_mem ?_ hmem
    unfold wheel_get
    exact (hbk _ (Nat.mod_lt _ hwlen)).1
  have htotal : wheel_count m.dl i = 1 := wheel_count_one_of_waiting m.dl i hInv hi hw
  have hpend0 : pending_count m.dl i = 0 := by
    refine pending_count_zero_of_not_pending m.dl i hInv ?_
    rw [hw]
    intro hc
    cases hc
  unfold cell_harq_manager.dl_ack_info
  split
  next heq =>
    rw [List.getElem?_eq_none_iff] at heq
    exact absurd hi (Nat.not_lt_of_le heq)
  next h heq =>
    have hgd : m.dl.harqs.getD i default = h := getD_eq_of_getElem? heq default
    rw [if_neg (by rw [hgd] at hw; intro hc; exact hc hw)]
    dsimp only
    split
    next hle =>
      rw [hgd] at hmore
      exact absurd hle (Nat.not_le_of_lt hmore)
    next hgt =>
      refine ⟨rfl, ?_, ?_, ?_, ?_, ?_, ?_, ?_⟩
      · rw [getD_set_self _ _ hi, hgd]
      · rw [getD_set_self _ _ hi, hgd]
      · rw [getD_set_self _ _ hi]
      · rw [getD_set_self _ _ hi]
        rw [hgd] at hw
        exact hw
      · unfold wheel_push_front
        rw [wheel_get_set_self _ (by rw [wheel_pop_length]; exact hwlen) rfl]
        exact List.mem_cons_self ..
      · unfold wheel_count
        unfold wheel_push_front wheel_pop
        have hs1 := sum_count_set i m.dl.harq_timeout_wheel
          (h.slot_ack_timeout % m.dl.harq_timeout_wheel.length)
          (Nat.mod_lt _ hwlen)
          ((wheel_get m.dl.harq_timeout_wheel h.slot_ack_timeout).erase i)
        have hs2 := sum_count_set i
          (wheel_set m.dl.harq_timeout_wheel h.slot_ack_timeout
            ((wheel_get m.dl.harq_timeout_wheel h.slot_ack_timeout).erase i))
          ((m.last_sl_tx + SHORT_ACK_TIMEOUT_DTX) %
            (wheel_set m.dl.harq_timeout_wheel h.slot_ack_timeout
              ((wheel_get m.dl.harq_timeout_wheel h.slot_ack_timeout).erase i)).length)
          (by rw [wheel_set_length]; exact Nat.mod_lt _ hwlen)
          (i :: wheel_get
            (wheel_set m.dl.harq_timeout_wheel h.slot_ack_timeout
              ((wheel_get m.dl.harq_timeout_wheel h.slot_ack_timeout).erase i))
            (m.last_sl_tx + SHORT_ACK_TIMEOUT_DTX))
        unfold wheel_count at htotal
        have hbold : (m.dl.harq_timeout_wheel.getD
            (h.slot_ack_timeout % m.dl.harq_timeout_wheel.length) []).count i = 1 := by
          unfold wheel_get at hbcount
          rw [hgd] at hbcount
          exact hbcount
        have herase : ((wheel_get m.dl.harq_timeout_wheel h.slot_ack_timeout).erase i).count
            i = 0 := by
          rw [List.count_erase_self]
          unfold wheel_get
          omega
        rw [List.count_cons_self] at hs2
        unfold wheel_set at hs2 ⊢
        unfold wheel_get at hs1 hs2 herase ⊢
        have hpopsum : (List.map (fun b => List.count i b)
            (m.dl.harq_timeout_wheel.set
              (h.slot_ack_timeout % m.dl.harq_timeout_wheel.length)
              ((m.dl.harq_timeout_wheel.getD
                (h.slot_ack_timeout % m.dl.harq_timeout_wheel.length) []).erase i))).sum
            = 0 := by
          omega
        dsimp only
        omega
      · exact hpend0

/-- Witness for C7 on the two-occasion record of ex_mgr_two_occ. -/
theorem nonfinal_ack_occasion_handling_witness :
    (RepoInv ex_mgr_two_occ.dl ∧ 0 < ex_mgr_two_occ.dl.harqs.length ∧
      (ex_mgr_two_occ.dl.harqs.getD 0 default).status = harq_state_t.waiting_ack ∧
      1 < (ex_mgr_two_occ.dl.harqs.getD 0 default).pucch_ack_to_receive) ∧
    ((ex_mgr_two_occ.dl_ack_info 0 mac_harq_ack_report_status.ack (some 5)).2 =
        status_update.no_update ∧
      ((ex_mgr_two_occ.dl_ack_info 0 mac_harq_ack_report_status.ack
          (some 5)).1.dl.harqs.getD 0 default).pucch_ack_to_receive =
        (ex_mgr_two_occ.dl.harqs.getD 0 default).pucch_ack_to_receive - 1 ∧
      ((ex_mgr_two_occ.dl_ack_info 0 mac_harq_ack_report_status.ack
          (some 5)).1.dl.harqs.getD 0 default).ack_on_timeout =
        decide ((merge_ack (ex_mgr_two_occ.dl.harqs.getD 0 default).chosen_ack
          (ex_mgr_two_occ.dl.harqs.getD 0 default).last_pucch_snr
          mac_harq_ack_report_status.ack (some 5)).1 = mac_harq_ack_report_status.ack) ∧
      ((ex_mgr_two_occ.dl_ack_info 0 mac_harq_ack_report_status.ack
          (some 5)).1.dl.harqs.getD 0 default).slot_ack_timeout =
        ex_mgr_two_occ.last_sl_tx + SHORT_ACK_TIMEOUT_DTX ∧
      ((ex_mgr_two_occ.dl_ack_info 0 mac_harq_ack_report_status.ack
          (some 5)).1.dl.harqs.getD 0 default).status = harq_state_t.waiting_ack ∧
      0 ∈ wheel_get (ex_mgr_two_occ.dl_ack_info 0 mac_harq_ack_report_status.ack
          (some 5)).1.dl.harq_timeout_wheel
        (ex_mgr_two_occ.last_sl_tx + SHORT_ACK_TIMEOUT_DTX) ∧
      wheel_count (ex_mgr_two_occ.dl_ack_info 0 mac_harq_ack_report_status.ack
        (some 5)).1.dl 0 = 1 ∧
      pending_count (ex_mgr_two_occ.dl_ack_info 0 mac_harq_ack_report_status.ack
        (some 5)).1.dl 0 = 0) :=
  ⟨⟨by decide, by decide, by decide, by decide⟩,
   nonfinal_ack_occasion_handling ex_mgr_two_occ 0 mac_harq_ack_report_status.ack (some 5)
     (by decide) (by decide) (by decide) (by decide)⟩

/-- C8: allocation failure on exhaustion.  For an existing terminal,
alloc_harq returns an empty result exactly when the global free pool or the
terminal's free process-id list is empty; on failure the repository state is
unchanged, and the manager-level new_dl_tx / new_ul_tx then return the
manager unchanged together with the empty result (no exception path exists in
the model). -/
theorem alloc_failure_on_exhaustion (st : cell_harq_repository)
    (u sl_tx sl_ack r : Nat) (hu : u < st.ues.length) :
    ((st.alloc_harq u sl_tx sl_ack r).2 = none ↔
        st.free_harqs = [] ∨ (st.ues.getD u default).free_harq_ids = []) ∧
    ((st.alloc_harq u sl_tx sl_ack r).2 = none →
        (st.alloc_harq u sl_tx sl_ack r).1 = st) ∧
    (∀ (m : cell_harq_manager) (k1 bi : Nat), m.dl = st →
        (st.alloc_harq u sl_tx (sl_tx + k1) r).2 = none →
        m.new_dl_tx u sl_tx k1 r bi = (m, none)) ∧
    (∀ m : cell_harq_manager, m.ul = st →
        (st.alloc_harq u sl_tx sl_tx r).2 = none →
        m.new_ul_tx u sl_tx r = (m, none)) := by
  have hue : st.ues[u]? = some (st.ues.getD u default) := getElem?_eq_some_getD _ hu
  have hiff : (st.alloc_harq u sl_tx sl_ack r).2 = none ↔
      st.free_harqs = [] ∨ (st.ues.getD u default).free_harq_ids = [] := by
    unfold cell_harq_repository.alloc_harq
    rw [hue]
    dsimp only
    cases hf : st.free_harqs with
    | nil => simp
    | cons i rest =>
      cases hg : (st.ues.getD u default).free_harq_ids with
      | nil => simp
      | cons h ids => simp
  refine ⟨hiff, ?_, ?_, ?_⟩
  · intro hn
    rcases hiff.mp hn with h | h
    · unfold cell_harq_repository.alloc_harq
      rw [hue]
      dsimp only
      rw [h]
      cases (st.ues.getD u default).free_harq_ids <;> rfl
    · unfold cell_harq_repository.alloc_harq
      rw [hue]
      dsimp only
      rw [h]
      cases st.free_harqs <;> rfl
  · intro m k1 bi hm hn
    unfold cell_harq_manager.new_dl_tx
    dsimp only
    rw [hm, hn]
  · intro m hm hn
    unfold cell_harq_manager.new_ul_tx
    dsimp only
    rw [hm, hn]

/-- Witness for C8 on ex_repo0 (no process ids reserved yet: the terminal's
free list is empty and allocation fails). -/
theorem alloc_failure_on_exhaustion_witness :
    0 < ex_repo0.ues.length ∧
    ((ex_repo0.alloc_harq 0 5 9 4).2 = none ↔
      ex_repo0.free_harqs = [] ∨ (ex_repo0.ues.getD 0 default).free_harq_ids = []) :=
  ⟨by decide, (alloc_failure_on_exhaustion ex_repo0 0 5 9 4 (by decide)).1⟩

/-- Terminal-local conservation: under the per-terminal invariants, the free
process-id list length plus the number of pool records owned by the terminal
equals its reserved budget. -/
theorem ue_free_add_nonempty (st : cell_harq_repository) (u : Nat)
    (hmap : ueMapInv st u) (hfree : ueFreeInv st u) :
    (st.ues.getD u default).free_harq_ids.length + nof_nonempty_ue st u =
      (st.ues.getD u default).nof_reserved := by
  obtain ⟨hnd, hlen, hmem, hcompl, hocc⟩ := hfree
  have hA : (st.ues.getD u default).free_harq_ids.length =
      ((Finset.range (st.ues.getD u default).nof_reserved).filter fun pid =>
        (st.ues.getD u default).harqs.getD pid none = none).card := by
    have htf : (st.ues.getD u default).free_harq_ids.toFinset =
        (Finset.range (st.ues.getD u default).nof_reserved).filter fun pid =>
          (st.ues.getD u default).harqs.getD pid none = none := by
      ext a
      simp only [List.mem_toFinset, Finset.mem_filter, Finset.mem_range]
      constructor
      · intro ha
        exact ⟨(hmem a ha).1, (hmem a ha).2⟩
      · intro ha
        exact hcompl a ha.1 ha.2
    rw [← htf]
    exact (List.toFinset_card_of_nodup hnd).symm
  have hB : nof_nonempty_ue st u =
      ((Finset.range (st.ues.getD u default).nof_reserved).filter fun pid =>
        ¬ (st.ues.getD u default).harqs.getD pid none = none).card := by
    unfold nof_nonempty_ue
    apply Finset.card_bij (fun i _ => (st.harqs.getD i default).h_id)
    · intro i hi
      rw [Finset.mem_filter, Finset.mem_range] at hi
      have hk := hmap.2 i hi.1 hi.2.1 hi.2.2
      rw [Finset.mem_filter, Finset.mem_range]
      refine ⟨hocc _ hk.1 (by rw [hk.2]; intro hc; cases hc), ?_⟩
      rw [hk.2]
      intro hc
      cases hc
    · intro i hi j hj hij
      rw [Finset.mem_filter, Finset.mem_range] at hi hj
      have hki := hmap.2 i hi.1 hi.2.1 hi.2.2
      have hkj := hmap.2 j hj.1 hj.2.1 hj.2.2
      have hsome := hki.2
      rw [hij, hkj.2] at hsome
      exact (Option.some_inj.mp hsome).symm
    · intro pid hpid
      rw [Finset.mem_filter, Finset.mem_range] at hpid
      obtain ⟨i, hsome⟩ := Option.ne_none_iff_exists'.mp hpid.2
      have hp1 := hmap.1 pid (Nat.lt_of_lt_of_le hpid.1 hlen) i hsome
      refine ⟨i, ?_, hp1.2.2.2⟩
      rw [Finset.mem_filter, Finset.mem_range]
      exact ⟨hp1.1, hp1.2.1, hp1.2.2.1⟩
  rw [hA, hB]
  have hpart := Finset.filter_card_add_filter_neg_card_eq_card
    (s := Finset.range (st.ues.getD u default).nof_reserved)
    (p := fun pid => (st.ues.getD u default).harqs.getD pid none = none)
  rw [Finset.card_range] at hpart
  exact hpart

/-- Counterexample to C9 as stated: terminal 0 was admitted with one DL
process (reserved budget 1), was never destroyed, and currently has its
single process allocated; yet contains reports the terminal absent and the
add_ue assertion does not trigger. -/
theorem double_admission_detection_counterexample :
    (ex_mgr_full.dl.ues.getD 0 default).nof_reserved = 1 ∧
    nof_nonempty_ue ex_mgr_full.dl 0 = 1 ∧
    ex_mgr_full.contains 0 = false ∧
    ex_mgr_full.add_ue_asserts 0 1 1 = true := by decide

/-- C9 (amended): under the per-terminal invariants, the free id list length
plus the number of owned records equals the reserved budget, and the add_ue
assertion triggers for a terminal exactly when it owns strictly fewer records
than its reserved budget — in particular it fails to detect double admission
of a terminal whose processes are all allocated
(double_admission_detection_counterexample). -/
theorem double_admission_detection_amended (m : cell_harq_manager) (u : Nat)
    (hmap : ueMapInv m.dl u) (hfree : ueFreeInv m.dl u) :
    (m.dl.ues.getD u default).free_harq_ids.length + nof_nonempty_ue m.dl u =
      (m.dl.ues.getD u default).nof_reserved ∧
    (∀ ndl nul : Nat, 0 < ndl → 0 < nul →
      (m.add_ue_asserts u ndl nul = false ↔
        nof_nonempty_ue m.dl u < (m.dl.ues.getD u default).nof_reserved)) := by
  have heq := ue_free_add_nonempty m.dl u hmap hfree
  refine ⟨heq, ?_⟩
  intro ndl nul hdl hul
  have hposd : decide (0 < ndl) = true := decide_eq_true hdl
  have hposu : decide (0 < nul) = true := decide_eq_true hul
  have hbool : m.add_ue_asserts u ndl nul = false ↔
      (m.dl.ues.getD u default).free_harq_ids ≠ [] := by
    unfold cell_harq_manager.add_ue_asserts cell_harq_manager.contains
    rw [hposd, hposu]
    cases (m.dl.ues.getD u default).free_harq_ids with
    | nil => simp
    | cons a l => simp
  rw [hbool]
  constructor
  · intro hne
    have hpos : 0 < (m.dl.ues.getD u default).free_harq_ids.length :=
      List.length_pos.mpr hne
    omega
  · intro hlt hnil
    rw [hnil] at heq
    simp only [List.length_nil, Nat.zero_add] at heq
    omega

/-- Witness for C9 (amended) on ex_mgr1: terminal 0 admitted with 16 free
processes and none allocated, so the assertion correctly triggers. -/
theorem double_admission_detection_amended_witness :
    (ueMapInv ex_mgr1.dl 0 ∧ ueFreeInv ex_mgr1.dl 0) ∧
    ((ex_mgr1.dl.ues.getD 0 default).free_harq_ids.length + nof_nonempty_ue ex_mgr1.dl 0 =
        (ex_mgr1.dl.ues.getD 0 default).nof_reserved ∧
      (∀ ndl nul : Nat, 0 < ndl → 0 < nul →
        (ex_mgr1.add_ue_asserts 0 ndl nul = false ↔
          nof_nonempty_ue ex_mgr1.dl 0 < (ex_mgr1.dl.ues.getD 0 default).nof_reserved))) :=
  ⟨⟨by decide, by decide⟩,
   double_admission_detection_amended ex_mgr1 0 (by decide) (by decide)⟩

/-- dealloc_harq marks the record empty but leaves every NDI bit in the pool
untouched. -/
theorem dealloc_ndi (st : cell_harq_repository) (k i : Nat) :
    ((st.dealloc_harq k).harqs.getD i default).ndi = (st.harqs.getD i default).ndi := by
  unfold cell_harq_repository.dealloc_harq
  cases hk : st.harqs[k]? with
  | none => rfl
  | some h =>
    dsimp only
    split
    · rfl
    · cases hu : st.ues[h.ue_idx]? with
      | none => rfl
      | some ue =>
        dsimp only
        by_cases hik : i = k
        · subst hik
          have hklt : i < st.harqs.length := lt_length_of_getElem? hk
          rw [getD_set_self _ _ hklt, getD_eq_of_getElem? hk]
        · rw [getD_set_ne _ _ (Ne.symm hik)]

/-- destroy_upto leaves every NDI bit in the pool untouched. -/
theorem destroy_upto_ndi (u k : Nat) (st : cell_harq_repository) (i : Nat) :
    ((cell_harq_repository.destroy_upto u k st).harqs.getD i default).ndi =
      (st.harqs.getD i default).ndi := by
  induction k with
  | zero => rfl
  | succ n ih =>
    unfold cell_harq_repository.destroy_upto
    dsimp only
    split
    · exact ih
    · rw [dealloc_ndi]
      exact ih

/-- destroy_ue_harqs leaves every NDI bit in the pool untouched. -/
theorem destroy_ndi (st : cell_harq_repository) (u i : Nat) :
    ((st.destroy_ue_harqs u).harqs.getD i default).ndi =
      (st.harqs.getD i default).ndi := by
  unfold cell_harq_repository.destroy_ue_harqs
  cases hu : st.ues[u]? with
  | none => rfl
  | some ue =>
    dsimp only
    split
    · exact destroy_upto_ndi u ue.harqs.length st i
    · exact destroy_upto_ndi u ue.harqs.length st i

/-- A successful allocation flips the NDI bit previously stored in the chosen
physical pool slot. -/
theorem alloc_ndi (st : cell_harq_repository) (u a b c i : Nat) (hInv : RepoInv st)
    (hn : (st.alloc_harq u a b c).2 = some i) :
    ((st.alloc_harq u a b c).1.harqs.getD i default).ndi =
      !(st.harqs.getD i default).ndi := by
  obtain ⟨⟨hnd, hbound, hiff⟩, _, _⟩ := hInv
  unfold cell_harq_repository.alloc_harq at hn ⊢
  cases hu2 : st.ues[u]? with
  | none =>
    rw [hu2] at hn
    simp at hn
  | some ue =>
    rw [hu2] at hn
    dsimp only at hn ⊢
    cases hf : st.free_harqs with
    | nil =>
      cases hg : ue.free_harq_ids with
      | nil => simp [hf, hg] at hn
      | cons pid ids => simp [hf, hg] at hn
    | cons j rest =>
      cases hg : ue.free_harq_ids with
      | nil => simp [hf, hg] at hn
      | cons pid ids =>
        rw [hf, hg] at hn
        dsimp only at hn ⊢
        have hij : j = i := Option.some_inj.mp hn
        subst hij
        have hjlt : j < st.harqs.length := hbound j (by rw [hf]; exact List.mem_cons_self _ _)
        rw [getD_set_self _ _ hjlt]

/-- C10: the new-data indicator lives in the physical pool record, not in the
(terminal, process id) pair: a successful allocation sets it to the negation
of the value last stored in the chosen array slot, deallocation and terminal
destruction never reset it, and in the concrete two-terminal recycling
scenario terminal 0 observes NDI true on two successive fresh allocations of
the same process id (the intervening occupant of pool slot 0 was terminal 1),
so the values do not alternate per (terminal, process id). -/
theorem ndi_toggles_per_pool_slot (st : cell_harq_repository)
    (u a b c i k v : Nat) (hInv : RepoInv st) :
    ((st.alloc_harq u a b c).2 = some i →
      ((st.alloc_harq u a b c).1.harqs.getD i default).ndi =
        !(st.harqs.getD i default).ndi) ∧
    ((st.dealloc_harq k).harqs.getD i default).ndi = (st.harqs.getD i default).ndi ∧
    ((st.destroy_ue_harqs v).harqs.getD i default).ndi = (st.harqs.getD i default).ndi ∧
    ((ex_ndi0.harqs.getD 0 default).ndi = true ∧
      (ex_ndi0.harqs.getD 0 default).ue_idx = 0 ∧
      (ex_ndi0.harqs.getD 0 default).h_id = 0 ∧
      (ex_ndi1.harqs.getD 0 default).ue_idx = 1 ∧
      (ex_ndi2.harqs.getD 0 default).ndi = true ∧
      (ex_ndi2.harqs.getD 0 default).ue_idx = 0 ∧
      (ex_ndi2.harqs.getD 0 default).h_id = 0) :=
  ⟨fun hn => alloc_ndi st u a b c i hInv hn,
   dealloc_ndi st k i, destroy_ndi st v i, by decide⟩

/-- Witness for C10 on ex_repo1: allocation of pool slot 0 flips its NDI bit
and the preservation conclusions instantiate at slot 0. -/
theorem ndi_toggles_per_pool_slot_witness :
    RepoInv ex_repo1 ∧
    (((ex_repo1.alloc_harq 0 100 104 4).2 = some 0 →
        ((ex_repo1.alloc_harq 0 100 104 4).1.harqs.getD 0 default).ndi =
          !(ex_repo1.harqs.getD 0 default).ndi) ∧
      ((ex_repo1.dealloc_harq 0).harqs.getD 0 default).ndi =
        (ex_repo1.harqs.getD 0 default).ndi ∧
      ((ex_repo1.destroy_ue_harqs 0).harqs.getD 0 default).ndi =
        (ex_repo1.harqs.getD 0 default).ndi ∧
      ((ex_ndi0.harqs.getD 0 default).ndi = true ∧
        (ex_ndi0.harqs.getD 0 default).ue_idx = 0 ∧
        (ex_ndi0.harqs.getD 0 default).h_id = 0 ∧
        (ex_ndi1.harqs.getD 0 default).ue_idx = 1 ∧
        (ex_ndi2.harqs.getD 0 default).ndi = true ∧
        (ex_ndi2.harqs.getD 0 default).ue_idx = 0 ∧
        (ex_ndi2.harqs.getD 0 default).h_id = 0)) :=
  ⟨by decide, ndi_toggles_per_pool_slot ex_repo1 0 100 104 4 0 0 0 (by decide)⟩
